import Mathlib

/-!
# StatsD client

A shallow embedding of the Go package `statsd` (`conn.go`, `statsd.go`) and the
properties of its buffering, sampling and sending paths.

* Go values of type `int64`, `float32` and `float64` are modelled exactly: `Int64` is the
  two's-complement range with wrapping arithmetic, floats are IEEE-754 bit fields with the
  IEEE comparison rules (NaN compares false with everything, `-0 == +0`).
* `fmt.Sprintf` is modelled for the verbs the package uses (`%s`, `%d`, `%v`, `%f`).
* A method with side effects becomes a function from the old state to the new state and the
  returned `error` (`none` is Go's `nil`).
* The pseudo-random draw of `shouldFire` is an explicit argument.
-/

namespace Statsd

/-! ## Machine numbers -/

/-- Two's-complement reduction of an integer to the range of `int64`. -/
def wrap64 (i : Int) : Int := (i + 2 ^ 63) % 2 ^ 64 - 2 ^ 63

/-- Go's `int64`: the integers from `-2^63` to `2^63 - 1`. -/
def Int64 : Type := { i : Int // -2 ^ 63 ≤ i ∧ i < 2 ^ 63 }

instance : DecidableEq Int64 := by unfold Int64; infer_instance

namespace Int64

/-- Conversion to `int64`, wrapping around on overflow. -/
def ofInt (i : Int) : Int64 := ⟨wrap64 i, by unfold wrap64; omega⟩

/-- Unary minus of Go on `int64` (wraps at the minimum value). -/
def neg (a : Int64) : Int64 := ofInt (-a.val)

/-- The statement `a++` on an `int64` (wraps at the maximum value). -/
def inc (a : Int64) : Int64 := ofInt (a.val + 1)

/-- Go's `/` on `int64`: the quotient truncated toward zero. -/
def div (a b : Int64) : Int64 := ofInt (Int.tdiv a.val b.val)

/-- Largest `int64`. -/
def maxValue : Int64 := ofInt (2 ^ 63 - 1)

/-- Smallest `int64`. -/
def minValue : Int64 := ofInt (-2 ^ 63)

end Int64

/-- An IEEE-754 binary floating-point number, held as its three bit fields
(`ew` exponent bits, `mw` stored mantissa bits). -/
structure IEEEFloat (ew mw : Nat) where
  sign : Bool
  exponent : Fin (2 ^ ew)
  mantissa : Fin (2 ^ mw)
deriving DecidableEq

/-- Go's `float32`. -/
abbrev Float32 := IEEEFloat 8 23

/-- Go's `float64`. -/
abbrev Float64 := IEEEFloat 11 52

namespace IEEEFloat

variable {ew mw : Nat}

/-- Not-a-number: all exponent bits set and a non-zero mantissa. -/
def isNaN (f : IEEEFloat ew mw) : Bool :=
  f.exponent.val == 2 ^ ew - 1 && f.mantissa.val != 0

/-- An infinity: all exponent bits set and a zero mantissa. -/
def isInf (f : IEEEFloat ew mw) : Bool :=
  f.exponent.val == 2 ^ ew - 1 && f.mantissa.val == 0

/-- The magnitude bits: exponent field and mantissa field read as one binary number. On
numbers that are not NaN they are ordered like the absolute values, an infinity is above
every finite number, and only the two zeros give `0`. -/
def mag (f : IEEEFloat ew mw) : Nat :=
  f.exponent.val * 2 ^ mw + f.mantissa.val

/-- The signed magnitude; it orders all numbers that are not NaN, and both zeros get `0`. -/
def key (f : IEEEFloat ew mw) : Int :=
  if f.sign then -(f.mag : Int) else (f.mag : Int)

/-- Go's `a < b` on floats. -/
def lt (a b : IEEEFloat ew mw) : Bool := !a.isNaN && !b.isNaN && decide (a.key < b.key)

/-- Go's `a <= b` on floats. -/
def le (a b : IEEEFloat ew mw) : Bool := !a.isNaN && !b.isNaN && decide (a.key ≤ b.key)

/-- Go's `a == b` on floats. -/
def eq (a b : IEEEFloat ew mw) : Bool := !a.isNaN && !b.isNaN && decide (a.key = b.key)

/-- Go's `a > b` on floats. -/
def gt (a b : IEEEFloat ew mw) : Bool := lt b a

/-- Positive zero, the value of the constant `0`. -/
def zero : IEEEFloat ew mw :=
  ⟨false, ⟨0, Nat.pos_pow_of_pos _ (by decide)⟩, ⟨0, Nat.pos_pow_of_pos _ (by decide)⟩⟩

end IEEEFloat

namespace Float32

/-- The `float32` value of the constant `1`. -/
def one : Float32 := ⟨false, ⟨127, by decide⟩, ⟨0, by decide⟩⟩

/-- The `float32` value `0.5`. -/
def half : Float32 := ⟨false, ⟨126, by decide⟩, ⟨0, by decide⟩⟩

/-- The `float32` value `0.75`. -/
def threeQuarters : Float32 := ⟨false, ⟨126, by decide⟩, ⟨4194304, by decide⟩⟩

/-- The `float32` value `2`. -/
def two : Float32 := ⟨false, ⟨128, by decide⟩, ⟨0, by decide⟩⟩

/-- The `float32` value `-1`. -/
def minusOne : Float32 := ⟨true, ⟨127, by decide⟩, ⟨0, by decide⟩⟩

/-- A quiet NaN. -/
def nan : Float32 := ⟨false, ⟨255, by decide⟩, ⟨4194304, by decide⟩⟩

end Float32

namespace Float64

/-- The `float64` value `-5`. -/
def minusFive : Float64 := ⟨true, ⟨1025, by decide⟩, ⟨1125899906842624, by decide⟩⟩

end Float64

/-! ## Formatting (`fmt` and `strconv`) -/

/-- Decimal digits of a natural number, most significant first; `fuel` bounds the number
of digits produced. -/
def decDigitsAux : Nat → Nat → List Nat → List Nat
  | 0, _, acc => acc
  | fuel + 1, n, acc =>
    if n < 10 then n :: acc else decDigitsAux fuel (n / 10) (n % 10 :: acc)

/-- Decimal digits of a natural number, most significant first. -/
def decDigits (n : Nat) : List Nat := decDigitsAux n n []

/-- The text of a list of decimal digits. -/
def digitChars (ds : List Nat) : String := String.mk (ds.map Nat.digitChar)

/-- The verb `%d` (and `%v`) on an integer: decimal digits with a leading minus sign
for a negative number. -/
def fmtInt (i : Int) : String :=
  if i < 0 then "-" ++ Nat.repr i.natAbs else Nat.repr i.natAbs

/-- The multi-precision decimal of `strconv`: digits `d` (no leading or trailing zero)
and the position `dp` of the decimal point. -/
structure Decimal where
  d : List Nat
  dp : Int
deriving DecidableEq

namespace Decimal

/-- Number of digits. -/
def nd (a : Decimal) : Int := a.d.length

/-- Function `trim` of `strconv`: drop trailing zeros; the empty decimal has `dp = 0`. -/
def trim (a : Decimal) : Decimal :=
  let ds := (a.d.reverse.dropWhile (· == 0)).reverse
  if ds.length = 0 then ⟨[], 0⟩ else ⟨ds, a.dp⟩

/-- The exact decimal expansion of `mant * 2 ^ e2` (`Assign` followed by `Shift`). -/
def ofBinary (mant : Nat) (e2 : Int) : Decimal :=
  if mant = 0 then ⟨[], 0⟩
  else match e2 with
    | Int.ofNat k =>
      let ds := decDigits (mant * 2 ^ k)
      trim ⟨ds, ds.length⟩
    | Int.negSucc k =>
      let ds := decDigits (mant * 5 ^ (k + 1))
      trim ⟨ds, (ds.length : Int) - (k + 1)⟩

/-- Digit at position `i`, `0` outside the stored digits. -/
def digit (a : Decimal) (i : Int) : Nat :=
  if 0 ≤ i then a.d.getD i.toNat 0 else 0

/-- Method `RoundDown`: truncate to `nd` digits. -/
def RoundDown (a : Decimal) (nd : Int) : Decimal :=
  if nd < 0 ∨ nd ≥ a.nd then a else trim ⟨a.d.take nd.toNat, a.dp⟩

/-- The carry loop of `RoundUp` over the kept digits, last digit first: the first digit
below nine is incremented and the nines after it are dropped. -/
def roundUpDigits : List Nat → Option (List Nat)
  | [] => none
  | c :: rest => if c < 9 then some ((c + 1) :: rest) else roundUpDigits rest

/-- Method `RoundUp`: round to `nd` digits away from zero. -/
def RoundUp (a : Decimal) (nd : Int) : Decimal :=
  if nd < 0 ∨ nd ≥ a.nd then a
  else match roundUpDigits (a.d.take nd.toNat).reverse with
    | some ds => ⟨ds.reverse, a.dp⟩
    | none => ⟨[1], a.dp + 1⟩

/-- Function `shouldRoundUp`: round to nearest, an exact half goes to the even digit. -/
def shouldRoundUp (a : Decimal) (nd : Int) : Bool :=
  if nd < 0 ∨ nd ≥ a.nd then false
  else if a.digit nd == 5 && nd + 1 == a.nd then
    decide (nd > 0) && (a.digit (nd - 1)) % 2 != 0
  else decide (a.digit nd ≥ 5)

/-- Method `Round`: round to `nd` digits. -/
def Round (a : Decimal) (nd : Int) : Decimal :=
  if nd < 0 ∨ nd ≥ a.nd then a
  else if a.shouldRoundUp nd then a.RoundUp nd else a.RoundDown nd

end Decimal

/-- The layout `%e` of `strconv` with `prec` digits after the point. -/
def fmtE (neg : Bool) (d : Decimal) (prec : Int) : String :=
  let first := if d.d.length ≠ 0 then d.digit 0 else 0
  let m := min d.nd (prec + 1)
  let frac :=
    if prec > 0 then
      "." ++ digitChars ((d.d.take m.toNat).drop 1)
        ++ String.mk (List.replicate (prec + 1 - max m 1).toNat '0')
    else ""
  let exp : Int := if d.d.length = 0 then 0 else d.dp - 1
  let esign := if exp < 0 then "-" else "+"
  let e := exp.natAbs
  let edigits := if e < 10 then "0" ++ Nat.repr e else Nat.repr e
  (if neg then "-" else "") ++ digitChars [first] ++ frac ++ "e" ++ esign ++ edigits

/-- The layout `%f` of `strconv` with `prec` digits after the point. -/
def fmtF (neg : Bool) (d : Decimal) (prec : Int) : String :=
  let int :=
    if d.dp > 0 then
      let m := min d.nd d.dp
      digitChars (d.d.take m.toNat) ++ String.mk (List.replicate (d.dp - m).toNat '0')
    else "0"
  let frac :=
    if prec > 0 then
      "." ++ digitChars ((List.range prec.toNat).map fun i => d.digit (d.dp + i))
    else ""
  (if neg then "-" else "") ++ int ++ frac

/-- The digit walk of `roundShortest` from position `ui` of the upper bound; `fuel` bounds
the number of positions visited. -/
def roundShortestLoop (d lower upper : Decimal) (inclusive : Bool) :
    Nat → Int → Nat → Decimal
  | 0, _, _ => d
  | fuel + 1, ui, upperdelta =>
    let mi := ui - upper.dp + d.dp
    if mi ≥ d.nd then d
    else
      let li := ui - upper.dp + lower.dp
      let l := if li ≥ 0 ∧ li < lower.nd then lower.digit li else 0
      let m := if mi ≥ 0 then d.digit mi else 0
      let u := if ui < upper.nd then upper.digit ui else 0
      let okdown := l != m || (inclusive && li + 1 == lower.nd)
      let upperdelta :=
        if upperdelta = 0 ∧ m + 1 < u then 2
        else if upperdelta = 0 ∧ m ≠ u then 1
        else if upperdelta = 1 ∧ (m ≠ 9 ∨ u ≠ 0) then 2
        else upperdelta
      let okup := decide (upperdelta > 0) &&
        (inclusive || decide (upperdelta > 1) || decide (ui + 1 < upper.nd))
      if okdown && okup then d.Round (mi + 1)
      else if okdown then d.RoundDown (mi + 1)
      else if okup then d.RoundUp (mi + 1)
      else roundShortestLoop d lower upper inclusive fuel (ui + 1) upperdelta

/-- Function `roundShortest` of `strconv`: the shortest decimal that still reads back as the
float `mant * 2 ^ (exp - mw)`, whose exact decimal is `d`. -/
def roundShortest (mw : Nat) (minexp : Int) (d : Decimal) (mant : Nat) (exp : Int) : Decimal :=
  if mant = 0 then ⟨[], d.dp⟩
  else if exp > minexp ∧ 332 * (d.dp - d.nd) ≥ 100 * (exp - mw) then d
  else
    let upper := Decimal.ofBinary (mant * 2 + 1) (exp - mw - 1)
    let (mantlo, explo) : Nat × Int :=
      if mant > 2 ^ mw ∨ exp = minexp then (mant - 1, exp) else (mant * 2 - 1, exp - 1)
    let lower := Decimal.ofBinary (mantlo * 2 + 1) (explo - mw - 1)
    let inclusive := mant % 2 == 0
    roundShortestLoop d lower upper inclusive (upper.d.length + d.d.length + 2) 0 0

namespace IEEEFloat

variable {ew mw : Nat}

/-- The exponent bias, as the negative number `strconv` adds to the exponent field. -/
def bias (_ : IEEEFloat ew mw) : Int := -((2 : Int) ^ (ew - 1) - 1)

/-- The pair `mant`, `exp` of `genericFtoa` for a finite number: its value is
`mant * 2 ^ (exp - mw)`. -/
def mantExp (f : IEEEFloat ew mw) : Nat × Int :=
  if f.exponent.val = 0 then (f.mantissa.val, 1 + f.bias)
  else (f.mantissa.val + 2 ^ mw, (f.exponent.val : Int) + f.bias)

/-- The verb `%f` with `prec` digits after the point (`prec = 6` when none is given):
the exact value rounded to nearest, an exact half to the even digit. -/
def formatF (f : IEEEFloat ew mw) (prec : Nat) : String :=
  if f.isNaN then "NaN"
  else if f.isInf then (if f.sign then "-Inf" else "+Inf")
  else
    let (mant, exp) := f.mantExp
    let d := Decimal.ofBinary mant (exp - mw)
    let d := d.Round (d.dp + prec)
    fmtF f.sign d prec

/-- The verb `%v` on a float: format `g` of `strconv` with the shortest digits that identify
the value, in the layout `%e` when the decimal exponent is below `-4` or at least `6` and in
the layout `%f` otherwise. -/
def formatG (f : IEEEFloat ew mw) : String :=
  if f.isNaN then "NaN"
  else if f.isInf then (if f.sign then "-Inf" else "+Inf")
  else
    let (mant, exp) := f.mantExp
    let d := Decimal.ofBinary mant (exp - mw)
    let digs := roundShortest mw (f.bias + 1) d mant exp
    let prec : Int := digs.nd
    let e := digs.dp - 1
    if e < -4 ∨ e ≥ 6 then fmtE f.sign digs (prec - 1)
    else fmtF f.sign digs (max (digs.nd - digs.dp) 0)

end IEEEFloat

/-- The dynamic value behind the `interface{}` argument of `send`: a Go `int` (the
constant `0` of the gauge reset), an `int64`, or a `float64`. -/
inductive Value where
  | int (i : Int)
  | int64 (i : Int64)
  | float64 (f : Float64)
deriving DecidableEq

/-- The verb `%v` on a value. -/
def Value.format : Value → String
  | .int i => fmtInt i
  | .int64 i => fmtInt i.val
  | .float64 f => f.formatG

/-- Go's `strings.TrimRight(s, ".")`: drop every trailing dot. -/
def TrimRightDots (s : String) : String :=
  String.mk (s.data.reverse.dropWhile (· == '.')).reverse

/-! ## conn.go -/

/-- Errors produced by the `net` package: a write or close on a connection that was
closed, or any other socket failure. -/
inductive NetError where
  | closed
  | io
deriving DecidableEq

/-- The error values a client method can return: the three package variables of
`conn.go`, or an error handed up from the connection. -/
inductive Error where
  | Err_NotConnected
  | Err_InvalidCount
  | Err_InvalidSampleRate
  | net (e : NetError)
deriving DecidableEq

/-- The UDP connection (`net.Conn`) as the client sees it. `writes` records the payload of
every `Write` call in call order. `faults` is the environment's script for the coming writes
on the open socket (`true`: that write fails); once it is used up, writes succeed. As in
package `net`, a `Write` or `Close` after `Close` fails with the closed-connection error. -/
structure Conn where
  closed : Bool
  faults : List Bool
  writes : List String
deriving DecidableEq

namespace Conn

/-- A freshly dialed connection with the given fault script. -/
def fresh (faults : List Bool) : Conn := ⟨false, faults, []⟩

/-- The call `conn.Write([]byte(b))`; the byte count it also returns is dropped by `send`. -/
def Write (c : Conn) (b : String) : Conn × Option Error :=
  if c.closed then ({ c with writes := c.writes ++ [b] }, some (.net .closed))
  else match c.faults with
    | [] => ({ c with writes := c.writes ++ [b] }, none)
    | fault :: rest =>
      ({ c with writes := c.writes ++ [b], faults := rest },
        if fault then some (.net .io) else none)

/-- The call `conn.Close()`. -/
def Close (c : Conn) : Conn × Option Error :=
  if c.closed then (c, some (.net .closed)) else ({ c with closed := true }, none)

end Conn

/-- One aggregated counter of the buffer. -/
structure bufferCount where
  name : String
  count : Int64
  sampleRate : Float32
deriving DecidableEq

/-- The client. Field `pfx` is Go's `prefix`; `conn = none` is the nil connection;
`flushTicker` tells whether the ticker still runs. The mutex is not modelled: every
operation below is one atomic step. -/
structure Client where
  addr : String
  pfx : String
  conn : Option Conn
  buffer : List bufferCount
  flushTicker : Bool
deriving DecidableEq

/-- Function `checkCount`. -/
def checkCount (c : Int64) : Option Error :=
  if c.val ≤ 0 then some .Err_InvalidCount else none

/-- Function `checkSampleRate`. -/
def checkSampleRate (rate : Float32) : Option Error :=
  if rate.lt IEEEFloat.zero || rate.gt Float32.one then some .Err_InvalidSampleRate else none

/-- Function `shouldFire`; `draw` is the value `r.Float32()` returns (it is only drawn when
the rate is not `1`). The values it can take are described by `isDraw`. -/
def shouldFire (draw : Float32) (sampleRate : Float32) : Bool :=
  if sampleRate.eq Float32.one then true else draw.le sampleRate

/-- The values the draw of `shouldFire` takes: `0 < draw < 1`. The source is made and seeded
anew on every call (`rand.New(rand.NewSource(time.Now().UnixNano()))`), so the draw is always
the first `Float32()` of a freshly seeded source. `Float32()` lies in `[0, 1)` and is
`float32(float64(Int63()) / 2^63)`, which is `0` only when the first `Int63()` of the source
is `0`; the seeded generator of `math/rand` gives that for no seed. The generator is part of
the Go library, not of this package, and enters the model only through this range. -/
def isDraw (draw : Float32) : Prop :=
  (IEEEFloat.zero : Float32).lt draw = true ∧ draw.lt Float32.one = true

instance (draw : Float32) : Decidable (isDraw draw) := by unfold isDraw; infer_instance

namespace Client

/-- The text `send` hands to `Write`: `fmt.Sprintf("%s:%v|%s|@%f", bucket, value, t,
sampleRate)` after the bucket got the prefix in front when the prefix is not empty. -/
def metric (cli : Client) (bucket : String) (value : Value) (t : String)
    (sampleRate : Float32) : String :=
  let bucket := if cli.pfx ≠ "" then cli.pfx ++ "." ++ bucket else bucket
  bucket ++ ":" ++ value.format ++ "|" ++ t ++ "|@" ++ sampleRate.formatF 6

/-- Method `send`: write one UDP packet with the event. -/
def send (cli : Client) (bucket : String) (value : Value) (t : String)
    (sampleRate : Float32) : Client × Option Error :=
  match cli.conn with
  | none => (cli, some .Err_NotConnected)
  | some conn =>
    let (conn, err) := conn.Write (cli.metric bucket value t sampleRate)
    ({ cli with conn := some conn }, err)

/-- The scan `for i := range cli.buffer` of `addToBuffer`: the index of the first entry
named `stat`, counting from `i` at the head of the list. -/
def scanBuffer (stat : String) : List bufferCount → Nat → Option Nat
  | [], _ => none
  | b :: rest, i => if b.name = stat then some i else scanBuffer stat rest (i + 1)

/-- Method `addToBuffer`. -/
def addToBuffer (cli : Client) (stat : String) (count : Int64) (sampleRate : Float32) :
    Client :=
  match scanBuffer stat cli.buffer 0 with
  | some i =>
    { cli with buffer := cli.buffer.modify (fun b => { b with count := b.count.inc }) i }
  | none => { cli with buffer := cli.buffer ++ [⟨stat, count, sampleRate⟩] }

/-- One tick of `bufferSendLoop`: the body of its `for range cli.flushTicker.C` loop. -/
def flushTick (cli : Client) : Client :=
  if cli.buffer.length = 0 then cli
  else
    let buffer := cli.buffer
    let cli := { cli with buffer := [] }
    buffer.foldl (fun c b => (c.send b.name (.int64 b.count) "c" b.sampleRate).1) cli

/-- Method `bufferSendLoop` over the next `ticks` ticks that the ticker delivers. -/
def bufferSendLoop (cli : Client) : Nat → Client
  | 0 => cli
  | ticks + 1 => bufferSendLoop cli.flushTick ticks

/-- Method `Close`: stop the ticker, then close the connection when there is one. The
field `conn` keeps its value. -/
def Close (cli : Client) : Client × Option Error :=
  let cli := { cli with flushTicker := false }
  match cli.conn with
  | none => (cli, none)
  | some conn =>
    let (conn, err) := conn.Close
    ({ cli with conn := some conn }, err)

/-- Method `IncrWithSampling`. -/
def IncrWithSampling (cli : Client) (draw : Float32) (stat : String) (count : Int64)
    (sampleRate : Float32) : Client × Option Error :=
  match checkSampleRate sampleRate with
  | some err => (cli, some err)
  | none =>
    if !shouldFire draw sampleRate then (cli, none)
    else match checkCount count with
      | some err => (cli, some err)
      | none => (cli.addToBuffer stat count sampleRate, none)

/-- Method `DecrWithSampling`. -/
def DecrWithSampling (cli : Client) (draw : Float32) (stat : String) (count : Int64)
    (sampleRate : Float32) : Client × Option Error :=
  match checkSampleRate sampleRate with
  | some err => (cli, some err)
  | none =>
    if !shouldFire draw sampleRate then (cli, none)
    else match checkCount count with
      | some err => (cli, some err)
      | none => cli.send stat (.int64 count.neg) "c" sampleRate

/-- Method `TimingWithSampling`. -/
def TimingWithSampling (cli : Client) (draw : Float32) (stat : String) (delta : Int64)
    (sampleRate : Float32) : Client × Option Error :=
  match checkSampleRate sampleRate with
  | some err => (cli, some err)
  | none =>
    if !shouldFire draw sampleRate then (cli, none)
    else cli.send stat (.int64 delta) "ms" sampleRate

/-- Method `GaugeWithSampling`; the error of the reset message is dropped. -/
def GaugeWithSampling (cli : Client) (draw : Float32) (stat : String) (value : Int64)
    (sampleRate : Float32) : Client × Option Error :=
  match checkSampleRate sampleRate with
  | some err => (cli, some err)
  | none =>
    if !shouldFire draw sampleRate then (cli, none)
    else
      let cli := if value.val < 0 then (cli.send stat (.int 0) "g" Float32.one).1 else cli
      cli.send stat (.int64 value) "g" sampleRate

/-- Method `FGaugeWithSampling`; the error of the first message is dropped. -/
def FGaugeWithSampling (cli : Client) (draw : Float32) (stat : String) (value : Float64)
    (sampleRate : Float32) : Client × Option Error :=
  match checkSampleRate sampleRate with
  | some err => (cli, some err)
  | none =>
    if !shouldFire draw sampleRate then (cli, none)
    else
      let cli :=
        if value.lt IEEEFloat.zero then (cli.send stat (.float64 value) "g" Float32.one).1
        else cli
      cli.send stat (.float64 value) "g" sampleRate

/-- The lines handed to the connection so far (none for a nil connection). -/
def writes (cli : Client) : List String :=
  match cli.conn with
  | none => []
  | some conn => conn.writes

end Client

/-- Function `NewClient`; `dial` is what `net.DialTimeout("udp", addr, 10s)` returns for an
address. The flush loop it starts is `Client.bufferSendLoop`. -/
def NewClient (dial : String → Except Error Conn) (addr : String) (pfx : String) :
    Except Error Client :=
  let pfx := TrimRightDots pfx
  match dial addr with
  | .error err => .error err
  | .ok conn => .ok ⟨addr, pfx, some conn, [], true⟩

/-! ## statsd.go -/

/-- The type `metricType` (an `int16`) with its four constants. -/
abbrev metricType := Int

/-- Constant `metricType_Count`. -/
def metricType_Count : metricType := 0

/-- Constant `metricType_Gauge`. -/
def metricType_Gauge : metricType := 1

/-- Constant `metricType_FGauge`. -/
def metricType_FGauge : metricType := 2

/-- Constant `metricType_Timer`. -/
def metricType_Timer : metricType := 3

/-- Constant `default_SampleRate`. -/
def default_SampleRate : Float32 := Float32.one

/-- Go's `time.Millisecond`, in nanoseconds. -/
def Millisecond : Int64 := Int64.ofInt 1000000

/-- The configuration for StatsD. -/
structure Config where
  Host : String
  Port : Int
  Project : String
  Enable : Bool
  SampleRate : Float32
deriving DecidableEq

/-- One queued metric. -/
structure metricItem where
  stat : String
  value : Value
  t : metricType
  sampleRate : Float32
deriving DecidableEq

/-- A buffered channel of metric items: its capacity and the items waiting in it, oldest
first. -/
structure Chan where
  cap : Nat
  items : List metricItem
deriving DecidableEq

/-- The package-level variables. `once` and `sendLoopOnce` tell whether the two `sync.Once`
have run. The worker started by `sendAsync` holds the pointer `getClient` returned, which is
`defaultClient`. `log` holds the items reported through `log.Printf`, oldest first. -/
structure Globals where
  config : Option Config
  addr : String
  once : Bool
  defaultClient : Option Client
  sendLoopOnce : Bool
  sendChan : Option Chan
  log : List metricItem
deriving DecidableEq

/-- The package state when the program starts. -/
def Globals.init : Globals := ⟨none, "", false, none, false, none, []⟩

/-- Function `Setup`. -/
def Setup (g : Globals) (cfg : Config) : Globals :=
  let config :=
    if cfg.SampleRate.eq IEEEFloat.zero then { cfg with SampleRate := default_SampleRate }
    else cfg
  { g with config := some config, addr := config.Host ++ ":" ++ fmtInt config.Port }

/-- Function `getClient`; the result `none` is the panic on a failed `NewClient`. The pointer
it returns is `defaultClient` of the new state. -/
def getClient (dial : String → Except Error Conn) (g : Globals) : Option Globals :=
  match g.config with
  | none => some g
  | some config =>
    if g.once then some g
    else match NewClient dial g.addr config.Project with
      | .error _ => none
      | .ok client => some { g with once := true, defaultClient := some client }

/-- The non-blocking send of `sendAsync` on the channel: the item goes to the tail when
there is room, and is logged otherwise (also when the channel is nil). -/
def enqueue (g : Globals) (item : metricItem) : Globals :=
  match g.sendChan with
  | some ch =>
    if ch.items.length < ch.cap then
      { g with sendChan := some { ch with items := ch.items ++ [item] } }
    else { g with log := g.log ++ [item] }
  | none => { g with log := g.log ++ [item] }

/-- Function `sendAsync`; the result `none` is a panic. The worker it starts is
`workerStep`: `sendEx` applied to the items of the channel in order. -/
def sendAsync (dial : String → Except Error Conn) (g : Globals) (stat : String)
    (value : Value) (t : metricType) (sampleRate : Float32) : Option Globals :=
  let started : Option Globals :=
    if g.sendLoopOnce then some g
    else
      let g := if g.sendChan.isNone then { g with sendChan := some ⟨1024, []⟩ } else g
      (getClient dial g).map fun g => { g with sendLoopOnce := true }
  started.map fun g => enqueue g ⟨stat, value, t, sampleRate⟩

/-- The package function `send`. -/
def send (dial : String → Except Error Conn) (g : Globals) (stat : String)
    (value : Value) (t : metricType) (sampleRate : Float32) : Option Globals :=
  sendAsync dial g stat value t sampleRate

/-- Function `sendEx` on a client that is not nil; the errors of the client methods are
dropped. -/
def sendEx (cli : Client) (draw : Float32) (stat : String) (value : Value) (t : metricType)
    (sampleRate : Float32) : Client :=
  if stat = "" then cli
  else if t = metricType_Count then
    match value with
    | .int64 val => (cli.IncrWithSampling draw stat val sampleRate).1
    | _ => cli
  else if t = metricType_Gauge then
    match value with
    | .int64 val => (cli.GaugeWithSampling draw stat val sampleRate).1
    | _ => cli
  else if t = metricType_FGauge then
    match value with
    | .float64 val => (cli.FGaugeWithSampling draw stat val sampleRate).1
    | _ => cli
  else if t = metricType_Timer then
    match value with
    | .int64 val => (cli.TimingWithSampling draw stat val sampleRate).1
    | _ => cli
  else cli

/-- The package function `IncrWithSampling`; `none` is the panic on a nil `config`. -/
def IncrWithSampling (dial : String → Except Error Conn) (g : Globals) (stat : String)
    (value : Int64) (sampleRate : Float32) : Option Globals :=
  match g.config with
  | none => none
  | some config =>
    if !config.Enable then some g
    else send dial g stat (.int64 value) metricType_Count sampleRate

/-- The package function `Incr`. -/
def Incr (dial : String → Except Error Conn) (g : Globals) (stat : String)
    (value : Int64) : Option Globals :=
  match g.config with
  | none => none
  | some config => IncrWithSampling dial g stat value config.SampleRate

/-- The package function `gauge`. -/
def gauge (dial : String → Except Error Conn) (g : Globals) (stat : String)
    (value : Value) (t : metricType) (sampleRate : Float32) : Option Globals :=
  send dial g stat value t sampleRate

/-- The package function `GaugeWithSampling`. -/
def GaugeWithSampling (dial : String → Except Error Conn) (g : Globals) (stat : String)
    (value : Int64) (sampleRate : Float32) : Option Globals :=
  gauge dial g stat (.int64 value) metricType_Gauge sampleRate

/-- The package function `Gauge`. -/
def Gauge (dial : String → Except Error Conn) (g : Globals) (stat : String)
    (value : Int64) : Option Globals :=
  match g.config with
  | none => none
  | some config => GaugeWithSampling dial g stat value config.SampleRate

/-- The package function `FGaugeWithSampling`. -/
def FGaugeWithSampling (dial : String → Except Error Conn) (g : Globals) (stat : String)
    (value : Float64) (sampleRate : Float32) : Option Globals :=
  match g.config with
  | none => none
  | some config =>
    if !config.Enable then some g
    else gauge dial g stat (.float64 value) metricType_FGauge sampleRate

/-- The package function `FGauge`. -/
def FGauge (dial : String → Except Error Conn) (g : Globals) (stat : String)
    (value : Float64) : Option Globals :=
  match g.config with
  | none => none
  | some config => FGaugeWithSampling dial g stat value config.SampleRate

/-- The package function `TimingWithSampling`; `d` is a `time.Duration`, a number of
nanoseconds. -/
def TimingWithSampling (dial : String → Except Error Conn) (g : Globals) (stat : String)
    (d : Int64) (sampleRate : Float32) : Option Globals :=
  match g.config with
  | none => none
  | some config =>
    if !config.Enable then some g
    else
      let t := d.div Millisecond
      send dial g stat (.int64 t) metricType_Timer sampleRate

/-- The package function `Timing`. -/
def Timing (dial : String → Except Error Conn) (g : Globals) (stat : String)
    (d : Int64) : Option Globals :=
  match g.config with
  | none => none
  | some config => TimingWithSampling dial g stat d config.SampleRate

/-! ## Reference definitions and concrete inputs for the properties -/

/-- The entry a coalescing hit leaves behind: the count one higher (in `int64` arithmetic),
the name and the sample rate as they were. -/
def bufferCount.bump (b : bufferCount) : bufferCount :=
  ⟨b.name, Int64.ofInt (b.count.val + 1), b.sampleRate⟩

/-- Reference for `addToBuffer`, after the specification: when the buffer has an entry named
`stat`, the first such entry is bumped and all else stays; when it has none, the new entry
`(stat, count, sampleRate)` is appended at the end. -/
def addToBufferReference (buffer : List bufferCount) (stat : String) (count : Int64)
    (sampleRate : Float32) : List bufferCount :=
  match buffer.dropWhile (fun b => decide (b.name ≠ stat)) with
  | [] => buffer ++ [⟨stat, count, sampleRate⟩]
  | first :: after => buffer.takeWhile (fun b => decide (b.name ≠ stat)) ++ first.bump :: after

/-- The names held in a buffer are pairwise distinct. -/
def NamesDistinct (buffer : List bufferCount) : Prop :=
  (buffer.map (fun b => b.name)).Nodup

instance (buffer : List bufferCount) : Decidable (NamesDistinct buffer) := by
  unfold NamesDistinct; infer_instance

/-- A step that touches the counter buffer: a call of `addToBuffer`, or a drain by one tick
of the flush loop. -/
inductive BufferStep where
  | add (stat : String) (count : Int64) (sampleRate : Float32)
  | drain

/-- The client after one buffer step. -/
def Client.bufferStep (cli : Client) : BufferStep → Client
  | .add stat count sampleRate => cli.addToBuffer stat count sampleRate
  | .drain => cli.flushTick

/-- The client after a sequence of buffer steps, first step first. -/
def Client.bufferSteps (cli : Client) (steps : List BufferStep) : Client :=
  steps.foldl Client.bufferStep cli

/-- A connected client without prefix whose connection has seen no write yet. -/
def exampleClient : Client := ⟨"127.0.0.1:8125", "", some (Conn.fresh []), [], true⟩

/-- A dialer that always connects, to a socket that accepts every write. -/
def exampleDial : String → Except Error Conn := fun _ => .ok (Conn.fresh [])

/-- The package state after `Setup` with recording enabled and no sample rate given. -/
def exampleGlobals : Globals :=
  Setup Globals.init ⟨"127.0.0.1", 8125, "", true, IEEEFloat.zero⟩

/-- A connected client without prefix whose next write fails and whose later writes
succeed. -/
def faultyClient : Client := ⟨"127.0.0.1:8125", "", some (Conn.fresh [true, false]), [], true⟩

/-- The counter line the flush loop sends for one buffered entry. -/
def Client.counterLine (cli : Client) (b : bufferCount) : String :=
  cli.metric b.name (.int64 b.count) "c" b.sampleRate

namespace Float32

/-- The `float32` value `-0`. -/
def negZero : Float32 := ⟨true, ⟨0, by decide⟩, ⟨0, by decide⟩⟩

end Float32

/-- The package state after `Setup` with recording disabled. -/
def disabledGlobals : Globals :=
  Setup Globals.init ⟨"127.0.0.1", 8125, "", false, IEEEFloat.zero⟩

/-- The client after one call `addToBuffer(stat, count, r)` for each rate `r` of the list,
in list order. -/
def Client.addToBufferEach (cli : Client) (stat : String) (count : Int64)
    (rates : List Float32) : Client :=
  rates.foldl (fun c r => c.addToBuffer stat count r) cli

/-- The package state after one `sendAsync` call per item of the list, in list order;
`none` is a panic. -/
def sendAsyncEach (dial : String → Except Error Conn) : Globals → List metricItem →
    Option Globals
  | g, [] => some g
  | g, item :: rest =>
    match sendAsync dial g item.stat item.value item.t item.sampleRate with
    | none => none
    | some g1 => sendAsyncEach dial g1 rest

/-- A full queue: 1024 copies of one counter item. -/
def fullChan : Chan :=
  ⟨1024, List.replicate 1024 ⟨"hits", .int64 (Int64.ofInt 1), metricType_Count, Float32.one⟩⟩

/-- A package state whose send loop runs and whose queue is full. -/
def fullGlobals : Globals :=
  { exampleGlobals with
    once := true, defaultClient := some exampleClient, sendLoopOnce := true,
    sendChan := some fullChan }

/-- Whether `sendEx` with a nil client panics: the client methods run on a nil receiver until
they first read a field of the client, in `addToBuffer` or in `send`, so the call panics
exactly when it gets past the checks and the sampling gate. -/
def sendExPanicsOnNil (draw : Float32) (stat : String) (value : Value) (t : metricType)
    (sampleRate : Float32) : Bool :=
  if stat = "" then false
  else if t = metricType_Count then
    match value with
    | .int64 val =>
      (checkSampleRate sampleRate).isNone && shouldFire draw sampleRate
        && (checkCount val).isNone
    | _ => false
  else if t = metricType_Gauge ∨ t = metricType_Timer then
    match value with
    | .int64 _ => (checkSampleRate sampleRate).isNone && shouldFire draw sampleRate
    | _ => false
  else if t = metricType_FGauge then
    match value with
    | .float64 _ => (checkSampleRate sampleRate).isNone && shouldFire draw sampleRate
    | _ => false
  else false

/-- One round of the worker that `sendAsync` starts: it takes the oldest item from the
channel and calls `sendEx` on the client it got from `getClient`; with an empty channel it
waits. `draw` is the sampler's draw for this item; `none` is a panic. -/
def workerStep (draw : Float32) (g : Globals) : Option Globals :=
  if !g.sendLoopOnce then some g
  else match g.sendChan with
    | none => some g
    | some ch =>
      match ch.items with
      | [] => some g
      | item :: rest =>
        match g.defaultClient with
        | some cli =>
          some { g with
            sendChan := some { ch with items := rest },
            defaultClient :=
              some (sendEx cli draw item.stat item.value item.t item.sampleRate) }
        | none =>
          if sendExPanicsOnNil draw item.stat item.value item.t item.sampleRate then none
          else some { g with sendChan := some { ch with items := rest } }

/-- Whether a text starts with a dot (`strings.HasPrefix(s, ".")`). -/
def startsWithDot (s : String) : Bool := s.data.head? == some '.'

/-- Whether a text ends with a dot (`strings.HasSuffix(s, ".")`). -/
def endsWithDot (s : String) : Bool := s.data.getLast? == some '.'

/-- All digits of a decimal are below ten. -/
def Decimal.Valid (a : Decimal) : Prop := ∀ x ∈ a.d, x < 10

end Statsd

namespace Statsd

/-! ## Helper lemmas -/

theorem checkSampleRate_eq_none_of_unit (r : Float32)
    (h0 : (IEEEFloat.zero : Float32).le r = true) (h1 : r.le Float32.one = true) :
    checkSampleRate r = none := by
  simp only [IEEEFloat.le, Bool.and_eq_true, decide_eq_true_eq] at h0 h1
  simp only [checkSampleRate, IEEEFloat.lt, IEEEFloat.gt]
  have a : ¬ (r.key < (IEEEFloat.zero : Float32).key) := by omega
  have b : ¬ ((Float32.one).key < r.key) := by omega
  simp [a, b]

theorem checkSampleRate_invalid (r : Float32)
    (h : r.lt IEEEFloat.zero = true ∨ r.gt Float32.one = true) :
    checkSampleRate r = some .Err_InvalidSampleRate := by
  unfold checkSampleRate
  rcases h with h | h <;> simp [h]

theorem scanBuffer_none (stat : String) (l : List bufferCount) (i : Nat)
    (h : Client.scanBuffer stat l i = none) : ∀ b ∈ l, b.name ≠ stat := by
  induction l generalizing i with
  | nil => simp
  | cons b rest ih =>
    simp only [Client.scanBuffer] at h
    split at h
    · simp at h
    · intro x hx
      rcases List.mem_cons.mp hx with rfl | hx
      · assumption
      · exact ih (i + 1) h x hx

theorem scanBuffer_some (stat : String) (l : List bufferCount) (i j : Nat)
    (h : Client.scanBuffer stat l i = some j) :
    ∃ before first after, l = before ++ first :: after ∧ (∀ b ∈ before, b.name ≠ stat)
      ∧ first.name = stat ∧ j = i + before.length := by
  induction l generalizing i with
  | nil => simp [Client.scanBuffer] at h
  | cons b rest ih =>
    simp only [Client.scanBuffer] at h
    split at h
    · rename_i hb
      refine ⟨[], b, rest, rfl, by simp, hb, ?_⟩
      simp at h; simp [h]
    · rename_i hb
      obtain ⟨before, first, after, hl, hbefore, hfirst, hj⟩ := ih (i + 1) h
      refine ⟨b :: before, first, after, by simp [hl], ?_, hfirst, ?_⟩
      · intro x hx
        rcases List.mem_cons.mp hx with rfl | hx
        · exact hb
        · exact hbefore x hx
      · simp [hj]; omega

theorem modify_split (f : bufferCount → bufferCount) (before : List bufferCount)
    (first : bufferCount) (after : List bufferCount) :
    (before ++ first :: after).modify f before.length = before ++ f first :: after := by
  induction before with
  | nil => simp
  | cons b rest ih => simp [ih]

theorem reference_split (stat : String) (count : Int64) (rate : Float32)
    (before : List bufferCount) (first : bufferCount) (after : List bufferCount)
    (hbefore : ∀ b ∈ before, b.name ≠ stat) (hfirst : first.name = stat) :
    addToBufferReference (before ++ first :: after) stat count rate
      = before ++ first.bump :: after := by
  unfold addToBufferReference
  have h1 : (before ++ first :: after).dropWhile (fun b => decide (b.name ≠ stat))
      = first :: after := by
    induction before with
    | nil => simp [List.dropWhile_cons, hfirst]
    | cons b rest ih =>
      have hb : b.name ≠ stat := hbefore b (by simp)
      rw [List.cons_append, List.dropWhile_cons_of_pos (by simpa using hb)]
      exact ih (fun x hx => hbefore x (by simp [hx]))
  have h2 : (before ++ first :: after).takeWhile (fun b => decide (b.name ≠ stat))
      = before := by
    clear h1
    induction before with
    | nil => simp [List.takeWhile_cons, hfirst]
    | cons b rest ih =>
      have hb : b.name ≠ stat := hbefore b (by simp)
      rw [List.cons_append, List.takeWhile_cons_of_pos (by simpa using hb)]
      rw [ih (fun x hx => hbefore x (by simp [hx]))]
  rw [h1, h2]

theorem reference_absent (stat : String) (count : Int64) (rate : Float32)
    (l : List bufferCount) (h : ∀ b ∈ l, b.name ≠ stat) :
    addToBufferReference l stat count rate = l ++ [⟨stat, count, rate⟩] := by
  unfold addToBufferReference
  have h1 : l.dropWhile (fun b => decide (b.name ≠ stat)) = [] := by
    induction l with
    | nil => rfl
    | cons b rest ih =>
      have hb : b.name ≠ stat := h b (by simp)
      rw [List.dropWhile_cons_of_pos (by simpa using hb)]
      exact ih (fun x hx => h x (by simp [hx]))
  rw [h1]

theorem addToBuffer_buffer (cli : Client) (stat : String) (count : Int64) (rate : Float32) :
    cli.addToBuffer stat count rate
      = { cli with buffer := addToBufferReference cli.buffer stat count rate } := by
  unfold Client.addToBuffer
  cases hs : Client.scanBuffer stat cli.buffer 0 with
  | none =>
    simp only
    rw [reference_absent stat count rate cli.buffer (scanBuffer_none stat _ 0 hs)]
  | some j =>
    obtain ⟨before, first, after, hl, hbefore, hfirst, hj⟩ := scanBuffer_some stat _ 0 j hs
    simp only
    rw [hl, reference_split stat count rate before first after hbefore hfirst]
    have : j = before.length := by omega
    rw [this, modify_split]
    rfl

theorem bump_name (b : bufferCount) : b.bump.name = b.name := rfl

theorem buffer_cases (stat : String) (l : List bufferCount) :
    (∀ b ∈ l, b.name ≠ stat) ∨
    ∃ before first after, l = before ++ first :: after ∧ (∀ b ∈ before, b.name ≠ stat)
      ∧ first.name = stat := by
  cases hs : Client.scanBuffer stat l 0 with
  | none => exact Or.inl (scanBuffer_none stat l 0 hs)
  | some j =>
    obtain ⟨before, first, after, hl, hbefore, hfirst, _⟩ := scanBuffer_some stat l 0 j hs
    exact Or.inr ⟨before, first, after, hl, hbefore, hfirst⟩

theorem namesDistinct_reference (stat : String) (count : Int64) (rate : Float32)
    (l : List bufferCount) (h : NamesDistinct l) :
    NamesDistinct (addToBufferReference l stat count rate) := by
  rcases buffer_cases stat l with habs | ⟨before, first, after, hl, hbefore, hfirst⟩
  · rw [reference_absent stat count rate l habs]
    unfold NamesDistinct at *
    rw [List.map_append, List.nodup_append]
    refine ⟨h, by simp, ?_⟩
    intro a ha hb
    simp only [List.map_cons, List.map_nil, List.mem_singleton] at hb
    obtain ⟨b, hbl, hba⟩ := List.mem_map.mp ha
    exact habs b hbl (by rw [hba, hb])
  · subst hl
    rw [reference_split stat count rate before first after hbefore hfirst]
    unfold NamesDistinct at *
    simpa [bump_name] using h

theorem send_buffer (cli : Client) (bucket : String) (value : Value) (t : String)
    (rate : Float32) : (cli.send bucket value t rate).1.buffer = cli.buffer := by
  unfold Client.send
  cases cli.conn <;> rfl

theorem foldl_send_buffer (l : List bufferCount) (cli : Client) :
    (l.foldl (fun c b => (c.send b.name (.int64 b.count) "c" b.sampleRate).1) cli).buffer
      = cli.buffer := by
  induction l generalizing cli with
  | nil => rfl
  | cons b rest ih => rw [List.foldl_cons, ih, send_buffer]

theorem flushTick_buffer (cli : Client) : cli.flushTick.buffer = [] := by
  unfold Client.flushTick
  split
  · rename_i h
    exact List.length_eq_zero.mp h
  · simp only
    rw [foldl_send_buffer]

theorem namesDistinct_bufferStep (cli : Client) (step : BufferStep)
    (h : NamesDistinct cli.buffer) : NamesDistinct (cli.bufferStep step).buffer := by
  cases step with
  | add stat count rate =>
    simp only [Client.bufferStep, addToBuffer_buffer]
    exact namesDistinct_reference stat count rate cli.buffer h
  | drain =>
    simp only [Client.bufferStep, flushTick_buffer]
    exact List.nodup_nil

theorem namesDistinct_bufferSteps (steps : List BufferStep) (cli : Client)
    (h : NamesDistinct cli.buffer) : NamesDistinct (cli.bufferSteps steps).buffer := by
  induction steps generalizing cli with
  | nil => exact h
  | cons step rest ih =>
    exact ih (cli.bufferStep step) (namesDistinct_bufferStep cli step h)

theorem namesDistinct_filter_length (l : List bufferCount) (h : NamesDistinct l)
    (name : String) : (l.filter (fun b => decide (b.name = name))).length ≤ 1 := by
  induction l with
  | nil => simp
  | cons b rest ih =>
    unfold NamesDistinct at h ih
    rw [List.map_cons, List.nodup_cons] at h
    by_cases hb : b.name = name
    · have hnone : rest.filter (fun b => decide (b.name = name)) = [] := by
        rw [List.filter_eq_nil_iff]
        intro x hx hxn
        apply h.1
        rw [List.mem_map]
        exact ⟨x, hx, by rw [hb]; simpa using hxn⟩
      rw [List.filter_cons_of_pos (by simpa using hb), hnone]
      simp
    · rw [List.filter_cons_of_neg (by simpa using hb)]
      exact ih h.2

theorem shouldFire_one (draw : Float32) : shouldFire draw Float32.one = true := by
  unfold shouldFire
  rw [if_pos (by decide)]

theorem checkSampleRate_one : checkSampleRate Float32.one = none := by decide

theorem incr_fired (cli : Client) (draw : Float32) (stat : String) (count : Int64)
    (rate : Float32) (hvalid : checkSampleRate rate = none)
    (hfire : shouldFire draw rate = true) (hpos : 0 < count.val) :
    cli.IncrWithSampling draw stat count rate = (cli.addToBuffer stat count rate, none) := by
  have hc : checkCount count = none := by
    unfold checkCount
    rw [if_neg (by omega)]
  simp [Client.IncrWithSampling, hvalid, hfire, hc]

theorem conn_write_writes (c : Conn) (b : String) : (c.Write b).1.writes = c.writes ++ [b] := by
  unfold Conn.Write
  split
  · rfl
  · split <;> rfl

theorem conn_write_closed (c : Conn) (b : String) (h : c.closed = true) :
    (c.Write b).2 = some (.net .closed) ∧ (c.Write b).1.closed = true := by
  unfold Conn.Write
  simp [h]

theorem send_connected (cli : Client) (conn : Conn) (bucket : String) (value : Value)
    (t : String) (rate : Float32) (h : cli.conn = some conn) :
    cli.send bucket value t rate
      = ({ cli with conn := some (conn.Write (cli.metric bucket value t rate)).1 },
          (conn.Write (cli.metric bucket value t rate)).2) := by
  unfold Client.send
  rw [h]

theorem send_writes (cli : Client) (conn : Conn) (bucket : String) (value : Value)
    (t : String) (rate : Float32) (h : cli.conn = some conn) :
    (cli.send bucket value t rate).1.writes
      = conn.writes ++ [cli.metric bucket value t rate] := by
  rw [send_connected cli conn bucket value t rate h]
  simp [Client.writes, conn_write_writes]

theorem checkCount_pos (count : Int64) (h : 0 < count.val) : checkCount count = none := by
  unfold checkCount
  rw [if_neg (by omega)]

theorem checkCount_nonpos (count : Int64) (h : count.val ≤ 0) :
    checkCount count = some .Err_InvalidCount := by
  unfold checkCount
  rw [if_pos h]

theorem conn_close_closed (c : Conn) : c.Close.1.closed = true := by
  unfold Conn.Close
  by_cases h : c.closed = true <;> simp [h]

theorem send_closed (cli : Client) (conn : Conn) (bucket : String) (value : Value)
    (t : String) (rate : Float32) (h : cli.conn = some conn) (hc : conn.closed = true) :
    (cli.send bucket value t rate).2 = some (.net .closed)
    ∧ ∃ conn2, (cli.send bucket value t rate).1.conn = some conn2 ∧ conn2.closed = true := by
  rw [send_connected cli conn bucket value t rate h]
  exact ⟨(conn_write_closed conn _ hc).1, _, rfl, (conn_write_closed conn _ hc).2⟩

theorem div_millisecond_val (d : Int64) :
    (d.div Millisecond).val = Int.tdiv d.val 1000000 := by
  have hd := d.property
  have hm : Millisecond.val = 1000000 := by decide
  simp only [Int64.div, Int64.ofInt, hm]
  have hb : -2 ^ 63 ≤ Int.tdiv d.val 1000000 ∧ Int.tdiv d.val 1000000 < 2 ^ 63 := by
    rcases Int.le_total 0 d.val with hp | hn
    · rw [Int.tdiv_eq_ediv hp (by decide)]
      omega
    · have e : Int.tdiv d.val 1000000 = -((-d.val) / 1000000) := by
        rw [← Int.tdiv_eq_ediv (by omega) (by decide), Int.neg_tdiv, Int.neg_neg]
      rw [e]
      omega
  unfold wrap64
  omega

theorem enqueue_room (g : Globals) (ch : Chan) (item : metricItem) (hch : g.sendChan = some ch)
    (hroom : ch.items.length < ch.cap) :
    enqueue g item = { g with sendChan := some { ch with items := ch.items ++ [item] } } := by
  unfold enqueue
  rw [hch]
  simp [hroom]

/-! ## Properties -/

/-! ### C1: Sample-rate validation -/

/-- C1. For every sample rate `r` with `r < 0` or `r > 1`, every stat and every value, each
of `IncrWithSampling`, `DecrWithSampling`, `TimingWithSampling`, `GaugeWithSampling` and
`FGaugeWithSampling` returns `Err_InvalidSampleRate` and hands back the client as it was (so
the counter buffer is unchanged and nothing is written), whatever the sampler draw is. -/
theorem invalid_sample_rate_rejected (cli : Client) (draw r : Float32) (stat : String)
    (count value : Int64) (fvalue : Float64)
    (h : r.lt IEEEFloat.zero = true ∨ r.gt Float32.one = true) :
    cli.IncrWithSampling draw stat count r = (cli, some .Err_InvalidSampleRate)
    ∧ cli.DecrWithSampling draw stat count r = (cli, some .Err_InvalidSampleRate)
    ∧ cli.TimingWithSampling draw stat value r = (cli, some .Err_InvalidSampleRate)
    ∧ cli.GaugeWithSampling draw stat value r = (cli, some .Err_InvalidSampleRate)
    ∧ cli.FGaugeWithSampling draw stat fvalue r = (cli, some .Err_InvalidSampleRate) := by
  have hc := checkSampleRate_invalid r h
  simp [Client.IncrWithSampling, Client.DecrWithSampling, Client.TimingWithSampling,
    Client.GaugeWithSampling, Client.FGaugeWithSampling, hc]

theorem invalid_sample_rate_rejected_witness :
    (Float32.two.lt IEEEFloat.zero = true ∨ Float32.two.gt Float32.one = true)
    ∧ exampleClient.IncrWithSampling Float32.half "hits" (Int64.ofInt 1) Float32.two
        = (exampleClient, some .Err_InvalidSampleRate)
    ∧ exampleClient.FGaugeWithSampling Float32.half "hits" Float64.minusFive Float32.two
        = (exampleClient, some .Err_InvalidSampleRate) :=
  have h := invalid_sample_rate_rejected exampleClient Float32.half Float32.two "hits"
    (Int64.ofInt 1) (Int64.ofInt 1) Float64.minusFive (Or.inr (by decide))
  ⟨Or.inr (by decide), h.1, h.2.2.2.2⟩

/-! ### C2: Count validation -/

/-- C2, amended. For every count `<= 0`, every stat, every sample rate in `[0, 1]` and every
draw, `IncrWithSampling` and `DecrWithSampling` hand back the client as it was (buffer
unchanged, nothing written); they return `Err_InvalidCount` when the sampler fires and `nil`
when it does not, because the sampling gate runs before `checkCount`. -/
theorem nonpositive_count_rejected_when_fired (cli : Client) (draw rate : Float32)
    (stat : String) (count : Int64) (hcount : count.val ≤ 0)
    (h0 : (IEEEFloat.zero : Float32).le rate = true) (h1 : rate.le Float32.one = true) :
    cli.IncrWithSampling draw stat count rate
      = (cli, if shouldFire draw rate then some .Err_InvalidCount else none)
    ∧ cli.DecrWithSampling draw stat count rate
      = (cli, if shouldFire draw rate then some .Err_InvalidCount else none) := by
  have hv := checkSampleRate_eq_none_of_unit rate h0 h1
  have hc := checkCount_nonpos count hcount
  cases hf : shouldFire draw rate <;>
    simp [Client.IncrWithSampling, Client.DecrWithSampling, hv, hc, hf]

theorem nonpositive_count_rejected_when_fired_witness :
    (Int64.ofInt (-3)).val ≤ 0
    ∧ (IEEEFloat.zero : Float32).le Float32.half = true
    ∧ Float32.half.le Float32.one = true
    ∧ exampleClient.IncrWithSampling IEEEFloat.zero "hits" (Int64.ofInt (-3)) Float32.half
      = (exampleClient,
          if shouldFire IEEEFloat.zero Float32.half then some .Err_InvalidCount else none) :=
  ⟨by decide, by decide, by decide,
    (nonpositive_count_rejected_when_fired exampleClient IEEEFloat.zero Float32.half "hits"
      (Int64.ofInt (-3)) (by decide) (by decide) (by decide)).1⟩

/-- C2, counterexample. With count `0`, sample rate `0.5` and the draw `0.75` the sampler does
not fire, and `IncrWithSampling` and `DecrWithSampling` return `nil`, not
`Err_InvalidCount`. -/
theorem nonpositive_count_not_rejected_when_not_fired :
    (Int64.ofInt 0).val ≤ 0
    ∧ (IEEEFloat.zero : Float32).le Float32.half = true
    ∧ Float32.half.le Float32.one = true
    ∧ isDraw Float32.threeQuarters
    ∧ (exampleClient.IncrWithSampling Float32.threeQuarters "hits" (Int64.ofInt 0)
        Float32.half).2 ≠ some .Err_InvalidCount
    ∧ (exampleClient.DecrWithSampling Float32.threeQuarters "hits" (Int64.ofInt 0)
        Float32.half).2 ≠ some .Err_InvalidCount := by
  decide

/-! ### C3: Name uniqueness in the counter buffer -/

/-- C3. Name uniqueness is an invariant of the counter buffer: when the names in the buffer
are pairwise distinct (as in the empty buffer), they are still pairwise distinct after any
sequence of `addToBuffer` calls and drains, so that the buffer holds at most one entry per
name; and two increments of `"foo"` at sample rate `1.0` on an empty buffer leave exactly
one entry, named `"foo"`. -/
theorem buffer_names_stay_distinct (cli : Client) (steps : List BufferStep)
    (h : NamesDistinct cli.buffer) :
    NamesDistinct (cli.bufferSteps steps).buffer
    ∧ (∀ name : String,
        ((cli.bufferSteps steps).buffer.filter (fun b => decide (b.name = name))).length ≤ 1)
    ∧ (∀ (c : Client) (d1 d2 : Float32) (c1 c2 : Int64), c.buffer = [] → 0 < c1.val →
        0 < c2.val →
        ((c.IncrWithSampling d1 "foo" c1 Float32.one).1.IncrWithSampling d2 "foo" c2
          Float32.one).1.buffer = [⟨"foo", c1.inc, Float32.one⟩]) := by
  have hd := namesDistinct_bufferSteps steps cli h
  refine ⟨hd, namesDistinct_filter_length _ hd, ?_⟩
  intro c d1 d2 c1 c2 hc h1 h2
  rw [incr_fired c d1 "foo" c1 _ checkSampleRate_one (shouldFire_one d1) h1]
  rw [incr_fired _ d2 "foo" c2 _ checkSampleRate_one (shouldFire_one d2) h2]
  simp [Client.addToBuffer, Client.scanBuffer, hc]

theorem buffer_names_stay_distinct_witness :
    NamesDistinct exampleClient.buffer
    ∧ NamesDistinct (exampleClient.bufferSteps
        [.add "foo" (Int64.ofInt 1) Float32.one, .add "bar" (Int64.ofInt 2) Float32.half,
          .add "foo" (Int64.ofInt 5) Float32.one, .drain,
          .add "foo" (Int64.ofInt 1) Float32.one]).buffer :=
  ⟨by decide, (buffer_names_stay_distinct exampleClient _ (by decide)).1⟩

/-! ### C4: Coalescing in `addToBuffer` -/

/-- C4. The method `addToBuffer` equals the reference: when the buffer has an entry named
`stat`, the count of the first such entry goes up by one (not by `count`) while its sample
rate, every other entry and the order stay; when it has none, the entry
`(stat, count, sampleRate)` is appended at the end. The increment is the `int64` one: exactly
`+ 1` for every count below the largest `int64`. -/
theorem addToBuffer_refines_reference (cli : Client) (stat : String) (count : Int64)
    (sampleRate : Float32) :
    cli.addToBuffer stat count sampleRate
      = { cli with buffer := addToBufferReference cli.buffer stat count sampleRate }
    ∧ (∀ before first after, cli.buffer = before ++ first :: after →
        (∀ b ∈ before, b.name ≠ stat) → first.name = stat →
        (cli.addToBuffer stat count sampleRate).buffer
          = before ++ ⟨first.name, first.count.inc, first.sampleRate⟩ :: after)
    ∧ ((∀ b ∈ cli.buffer, b.name ≠ stat) →
        (cli.addToBuffer stat count sampleRate).buffer
          = cli.buffer ++ [⟨stat, count, sampleRate⟩])
    ∧ (∀ c : Int64, c.val < 2 ^ 63 - 1 → c.inc.val = c.val + 1) := by
  refine ⟨addToBuffer_buffer cli stat count sampleRate, ?_, ?_, ?_⟩
  · intro before first after hl hbefore hfirst
    rw [addToBuffer_buffer, hl]
    exact reference_split stat count sampleRate before first after hbefore hfirst
  · intro habs
    rw [addToBuffer_buffer]
    exact reference_absent stat count sampleRate cli.buffer habs
  · intro c hc
    have := c.property
    simp only [Int64.inc, Int64.ofInt, wrap64]
    omega

theorem addToBuffer_refines_reference_witness :
    (∀ b ∈ ([⟨"bar", Int64.ofInt 2, Float32.half⟩] : List bufferCount), b.name ≠ "foo")
    ∧ ({ exampleClient with
          buffer := [⟨"bar", Int64.ofInt 2, Float32.half⟩, ⟨"foo", Int64.ofInt 1, Float32.one⟩,
            ⟨"foo", Int64.ofInt 9, Float32.one⟩] } : Client).addToBuffer "foo" (Int64.ofInt 5)
          Float32.half
        = { exampleClient with
            buffer := [⟨"bar", Int64.ofInt 2, Float32.half⟩, ⟨"foo", Int64.ofInt 2, Float32.one⟩,
              ⟨"foo", Int64.ofInt 9, Float32.one⟩] } :=
  ⟨by decide,
    (addToBuffer_refines_reference _ "foo" (Int64.ofInt 5) Float32.half).1.trans (by decide)⟩

/-! ### C5: Negative integer gauge -/

/-- C5. On a connected client, with a valid sample rate at which the sampler fires,
`GaugeWithSampling` writes exactly two lines for a value `< 0`, first the reset line (value
`0`, type `g`, sample rate `1`) and then the line of the value (type `g`, the caller's sample
rate), and exactly one line, that of the value, for a value `>= 0`. Without prefix,
`Gauge("mem", -5)` at rate `1.0` writes `mem:0|g|@1.000000` and then
`mem:-5|g|@1.000000`. -/
theorem gauge_negative_sends_reset_first (cli : Client) (conn : Conn) (draw : Float32)
    (stat : String) (value : Int64) (rate : Float32) (hconn : cli.conn = some conn)
    (hvalid : checkSampleRate rate = none) (hfire : shouldFire draw rate = true) :
    (value.val < 0 →
      (cli.GaugeWithSampling draw stat value rate).1.writes
        = conn.writes ++ [cli.metric stat (.int 0) "g" Float32.one,
            cli.metric stat (.int64 value) "g" rate])
    ∧ (0 ≤ value.val →
      (cli.GaugeWithSampling draw stat value rate).1.writes
        = conn.writes ++ [cli.metric stat (.int64 value) "g" rate])
    ∧ (cli.pfx = "" →
      (cli.GaugeWithSampling draw "mem" (Int64.ofInt (-5)) Float32.one).1.writes
        = conn.writes ++ ["mem:0|g|@1.000000", "mem:-5|g|@1.000000"]) := by
  have hneg : ∀ (d : Float32) (s : String) (v : Int64) (r : Float32),
      checkSampleRate r = none → shouldFire d r = true → v.val < 0 →
      (cli.GaugeWithSampling d s v r).1.writes
        = conn.writes ++ [cli.metric s (.int 0) "g" Float32.one,
            cli.metric s (.int64 v) "g" r] := by
    intro d s v r hv hf hlt
    simp only [Client.GaugeWithSampling, hv, hf, hlt, if_true, Bool.not_true,
      Bool.false_eq_true, if_false]
    rw [send_connected cli conn s (.int 0) "g" Float32.one hconn]
    rw [send_writes _ (conn.Write (cli.metric s (.int 0) "g" Float32.one)).1 _ _ _ _ rfl]
    rw [conn_write_writes, List.append_assoc]
    rfl
  refine ⟨hneg draw stat value rate hvalid hfire, ?_, ?_⟩
  · intro hv
    have hv' : ¬ value.val < 0 := by omega
    simp only [Client.GaugeWithSampling, hvalid, hfire, hv', if_true, Bool.not_true,
      Bool.false_eq_true, if_false]
    exact send_writes cli conn stat _ "g" rate hconn
  · intro hp
    rw [hneg draw "mem" _ _ checkSampleRate_one (shouldFire_one draw) (by decide)]
    have e1 : cli.metric "mem" (.int 0) "g" Float32.one = "mem:0|g|@1.000000" := by
      unfold Client.metric
      rw [hp]
      decide
    have e2 : cli.metric "mem" (.int64 (Int64.ofInt (-5))) "g" Float32.one
        = "mem:-5|g|@1.000000" := by
      unfold Client.metric
      rw [hp]
      decide
    rw [e1, e2]

theorem gauge_negative_sends_reset_first_witness :
    exampleClient.conn = some (Conn.fresh [])
    ∧ checkSampleRate Float32.half = none
    ∧ shouldFire IEEEFloat.zero Float32.half = true
    ∧ (exampleClient.GaugeWithSampling IEEEFloat.zero "mem" (Int64.ofInt (-5))
        Float32.half).1.writes = ["mem:0|g|@1.000000", "mem:-5|g|@0.500000"] :=
  ⟨rfl, by decide, by decide,
    ((gauge_negative_sends_reset_first exampleClient (Conn.fresh []) IEEEFloat.zero "mem"
      (Int64.ofInt (-5)) Float32.half rfl (by decide) (by decide)).1 (by decide)).trans
      (by decide)⟩

/-! ### C6: Negative float gauge -/

/-- C6, the code at the failing input. `FGaugeWithSampling("mem", -5.0, 1.0)` on a connected
client without prefix writes the line of the value twice, `mem:-5|g|@1.000000`; its first
message is not the reset line `mem:0|g|@1.000000`. -/
theorem fgauge_negative_sends_value_twice :
    Float64.minusFive.lt IEEEFloat.zero = true
    ∧ (exampleClient.FGaugeWithSampling Float32.half "mem" Float64.minusFive
        Float32.one).1.writes = ["mem:-5|g|@1.000000", "mem:-5|g|@1.000000"]
    ∧ exampleClient.metric "mem" (.int 0) "g" Float32.one = "mem:0|g|@1.000000"
    ∧ (exampleClient.FGaugeWithSampling Float32.half "mem" Float64.minusFive
        Float32.one).1.writes.head? ≠ some "mem:0|g|@1.000000" := by
  decide

/-! ### C7: Operations after `Close` -/

/-- C7, amended. After `Close()` on a connected client the connection is still set (and
closed), so every recording operation that reaches the transport (`DecrWithSampling` with
count `> 0`, `TimingWithSampling`, `GaugeWithSampling`, `FGaugeWithSampling`, each with a valid
sample rate at which the sampler fires) returns the error of the write on the closed
connection, which is not `Err_NotConnected`. -/
theorem operations_after_close (cli : Client) (conn : Conn) (draw : Float32) (stat : String)
    (count value : Int64) (fvalue : Float64) (rate : Float32) (hconn : cli.conn = some conn)
    (hpos : 0 < count.val) (hvalid : checkSampleRate rate = none)
    (hfire : shouldFire draw rate = true) :
    cli.Close.1.conn = some conn.Close.1
    ∧ conn.Close.1.closed = true
    ∧ (cli.Close.1.DecrWithSampling draw stat count rate).2 = some (.net .closed)
    ∧ (cli.Close.1.TimingWithSampling draw stat value rate).2 = some (.net .closed)
    ∧ (cli.Close.1.GaugeWithSampling draw stat value rate).2 = some (.net .closed)
    ∧ (cli.Close.1.FGaugeWithSampling draw stat fvalue rate).2 = some (.net .closed) := by
  have h1 : cli.Close.1.conn = some conn.Close.1 := by
    unfold Client.Close
    simp [hconn]
  have h2 := conn_close_closed conn
  have hc := checkCount_pos count hpos
  refine ⟨h1, h2, ?_, ?_, ?_, ?_⟩
  · simp only [Client.DecrWithSampling, hvalid, hfire, hc, Bool.not_true, Bool.false_eq_true,
      if_false]
    exact (send_closed _ _ _ _ _ _ h1 h2).1
  · simp only [Client.TimingWithSampling, hvalid, hfire, Bool.not_true, Bool.false_eq_true,
      if_false]
    exact (send_closed _ _ _ _ _ _ h1 h2).1
  · simp only [Client.GaugeWithSampling, hvalid, hfire, Bool.not_true, Bool.false_eq_true,
      if_false]
    split
    · obtain ⟨conn2, e1, e2⟩ := (send_closed cli.Close.1 _ stat (.int 0) "g" Float32.one h1 h2).2
      exact (send_closed _ _ _ _ _ _ e1 e2).1
    · exact (send_closed _ _ _ _ _ _ h1 h2).1
  · simp only [Client.FGaugeWithSampling, hvalid, hfire, Bool.not_true, Bool.false_eq_true,
      if_false]
    split
    · obtain ⟨conn2, e1, e2⟩ :=
        (send_closed cli.Close.1 _ stat (.float64 fvalue) "g" Float32.one h1 h2).2
      exact (send_closed _ _ _ _ _ _ e1 e2).1
    · exact (send_closed _ _ _ _ _ _ h1 h2).1

theorem operations_after_close_witness :
    exampleClient.conn = some (Conn.fresh [])
    ∧ 0 < (Int64.ofInt 2).val
    ∧ checkSampleRate Float32.one = none
    ∧ shouldFire Float32.half Float32.one = true
    ∧ (exampleClient.Close.1.TimingWithSampling Float32.half "load" (Int64.ofInt 7)
        Float32.one).2 = some (.net .closed) :=
  ⟨rfl, by decide, by decide, by decide,
    (operations_after_close exampleClient (Conn.fresh []) Float32.half "load" (Int64.ofInt 2)
      (Int64.ofInt 7) Float64.minusFive Float32.one rfl (by decide) (by decide)
      (by decide)).2.2.2.1⟩

/-- C7, counterexample. After `Close()` on a connected client, `TimingWithSampling`,
`DecrWithSampling`, `GaugeWithSampling` and `FGaugeWithSampling` at sample rate `1.0` do not
return `Err_NotConnected`. -/
theorem operations_after_close_not_Err_NotConnected :
    exampleClient.conn ≠ none
    ∧ checkSampleRate Float32.one = none
    ∧ shouldFire Float32.half Float32.one = true
    ∧ (exampleClient.Close.1.TimingWithSampling Float32.half "load" (Int64.ofInt 7)
        Float32.one).2 ≠ some .Err_NotConnected
    ∧ (exampleClient.Close.1.DecrWithSampling Float32.half "load" (Int64.ofInt 7)
        Float32.one).2 ≠ some .Err_NotConnected
    ∧ (exampleClient.Close.1.GaugeWithSampling Float32.half "load" (Int64.ofInt 7)
        Float32.one).2 ≠ some .Err_NotConnected
    ∧ (exampleClient.Close.1.FGaugeWithSampling Float32.half "load" Float64.minusFive
        Float32.one).2 ≠ some .Err_NotConnected := by
  decide

/-! ### C8: Sampling at the boundary rates -/

/-- C9, amended. With recording enabled, the package function `TimingWithSampling(stat, d,
rate)` hands `send` the `int64` `d / 1000000` (truncated toward zero) tagged
`metricType_Timer`, which joins the tail of the queue when the loop runs and there is room.
For a stat that is not empty, `sendEx` passes that item to `Client.TimingWithSampling`, which,
on a connected client with a valid sample rate at which the sampler fires, writes one line
with that value and type `ms`. So `1500000000` ns gives the value `1500`, for instance the
line `load:1500|ms|@1.000000`. -/
theorem timing_in_milliseconds (dial : String → Except Error Conn) (g : Globals)
    (config : Config) (stat : String) (d : Int64) (rate : Float32)
    (hconfig : g.config = some config) (henable : config.Enable = true) :
    TimingWithSampling dial g stat d rate
      = send dial g stat (.int64 (d.div Millisecond)) metricType_Timer rate
    ∧ (d.div Millisecond).val = Int.tdiv d.val 1000000
    ∧ (∀ ch : Chan, g.sendLoopOnce = true → g.sendChan = some ch →
        ch.items.length < ch.cap →
        TimingWithSampling dial g stat d rate
          = some { g with sendChan := some { ch with items := ch.items ++
              [⟨stat, .int64 (d.div Millisecond), metricType_Timer, rate⟩] } })
    ∧ (∀ (cli : Client) (draw : Float32), stat ≠ "" →
        sendEx cli draw stat (.int64 (d.div Millisecond)) metricType_Timer rate
          = (cli.TimingWithSampling draw stat (d.div Millisecond) rate).1)
    ∧ (∀ (cli : Client) (conn : Conn) (draw : Float32), cli.conn = some conn →
        checkSampleRate rate = none → shouldFire draw rate = true →
        (cli.TimingWithSampling draw stat (d.div Millisecond) rate).1.writes
          = conn.writes ++ [cli.metric stat (.int64 (d.div Millisecond)) "ms" rate])
    ∧ (Int64.ofInt 1500000000).div Millisecond = Int64.ofInt 1500
    ∧ exampleClient.metric "load" (.int64 ((Int64.ofInt 1500000000).div Millisecond)) "ms"
        Float32.one = "load:1500|ms|@1.000000" := by
  have hsend : TimingWithSampling dial g stat d rate
      = send dial g stat (.int64 (d.div Millisecond)) metricType_Timer rate := by
    simp [TimingWithSampling, hconfig, henable]
  refine ⟨hsend, div_millisecond_val d, ?_, ?_, ?_, by decide, by decide⟩
  · intro ch hloop hch hroom
    rw [hsend]
    unfold send sendAsync
    rw [if_pos hloop, Option.map_some', enqueue_room g ch _ hch hroom]
  · intro cli draw hstat
    have h3 : metricType_Timer ≠ metricType_Count := by decide
    have h4 : metricType_Timer ≠ metricType_Gauge := by decide
    have h5 : metricType_Timer ≠ metricType_FGauge := by decide
    simp only [sendEx, hstat, h3, h4, h5, if_false, if_true]
  · intro cli conn draw hconn hvalid hfire
    simp only [Client.TimingWithSampling, hvalid, hfire, Bool.not_true, Bool.false_eq_true,
      if_false]
    exact send_writes cli conn stat _ "ms" rate hconn

theorem timing_in_milliseconds_witness :
    exampleGlobals.config = some ⟨"127.0.0.1", 8125, "", true, Float32.one⟩
    ∧ (⟨"127.0.0.1", 8125, "", true, Float32.one⟩ : Config).Enable = true
    ∧ TimingWithSampling exampleDial exampleGlobals "load" (Int64.ofInt (-1500000001))
        Float32.one
      = send exampleDial exampleGlobals "load" (.int64 (Int64.ofInt (-1500))) metricType_Timer
          Float32.one
    ∧ sendEx exampleClient Float32.half "load" (.int64 (Int64.ofInt (-1500))) metricType_Timer
        Float32.one
      = (exampleClient.TimingWithSampling Float32.half "load" (Int64.ofInt (-1500))
          Float32.one).1 :=
  have h := timing_in_milliseconds exampleDial exampleGlobals
    ⟨"127.0.0.1", 8125, "", true, Float32.one⟩ "load" (Int64.ofInt (-1500000001)) Float32.one
    (by decide) (by decide)
  ⟨by decide, by decide, h.1.trans (by decide), (h.2.2.2.1 exampleClient Float32.half
    (by decide)).trans (by decide)⟩

/-- C9, counterexample. With recording enabled, `TimingWithSampling("", 1500000000ns, 1.0)`
queues the timer item of value `1500`, but `sendEx` returns at once on the empty stat: the
client is unchanged and nothing is written, while `Client.TimingWithSampling` on the same
arguments would have written a line. -/
theorem timing_with_empty_stat_is_discarded :
    (exampleGlobals.config.map fun c => c.Enable) = some true
    ∧ (TimingWithSampling exampleDial exampleGlobals "" (Int64.ofInt 1500000000)
        Float32.one).map (fun g => g.sendChan)
      = some (some ⟨1024, [⟨"", .int64 (Int64.ofInt 1500), metricType_Timer, Float32.one⟩]⟩)
    ∧ sendEx exampleClient Float32.half "" (.int64 (Int64.ofInt 1500)) metricType_Timer
        Float32.one = exampleClient
    ∧ (sendEx exampleClient Float32.half "" (.int64 (Int64.ofInt 1500)) metricType_Timer
        Float32.one).writes = []
    ∧ (exampleClient.TimingWithSampling Float32.half "" (Int64.ofInt 1500)
        Float32.one).1.writes = [":1500|ms|@1.000000"]
    ∧ sendEx exampleClient Float32.half "" (.int64 (Int64.ofInt 1500)) metricType_Timer
        Float32.one
      ≠ (exampleClient.TimingWithSampling Float32.half "" (Int64.ofInt 1500) Float32.one).1 := by
  decide

/-! ### C10: Decrement -/

/-- C10. On a connected client, for every count `> 0` and every valid sample rate at which
the sampler fires, `DecrWithSampling(stat, count, rate)` makes exactly one write, the counter
line (type `c`) with the value `-count` at the caller's sample rate, and leaves the counter
buffer as it was. -/
theorem decr_sends_negated_count (cli : Client) (conn : Conn) (draw : Float32)
    (stat : String) (count : Int64) (rate : Float32) (hconn : cli.conn = some conn)
    (hpos : 0 < count.val) (hvalid : checkSampleRate rate = none)
    (hfire : shouldFire draw rate = true) :
    (cli.DecrWithSampling draw stat count rate).1.writes
      = conn.writes ++ [cli.metric stat (.int64 count.neg) "c" rate]
    ∧ count.neg.val = -count.val
    ∧ (cli.DecrWithSampling draw stat count rate).1.buffer = cli.buffer := by
  have hc := checkCount_pos count hpos
  simp only [Client.DecrWithSampling, hvalid, hfire, hc, Bool.not_true, Bool.false_eq_true,
    if_false]
  refine ⟨send_writes cli conn stat _ "c" rate hconn, ?_, send_buffer cli stat _ "c" rate⟩
  have := count.property
  simp only [Int64.neg, Int64.ofInt, wrap64]
  omega

theorem decr_sends_negated_count_witness :
    exampleClient.conn = some (Conn.fresh [])
    ∧ 0 < (Int64.ofInt 3).val
    ∧ checkSampleRate Float32.half = none
    ∧ shouldFire IEEEFloat.zero Float32.half = true
    ∧ (exampleClient.DecrWithSampling IEEEFloat.zero "hits" (Int64.ofInt 3)
        Float32.half).1.writes = ["hits:-3|c|@0.500000"] :=
  ⟨rfl, by decide, by decide, by decide,
    (decr_sends_negated_count exampleClient (Conn.fresh []) IEEEFloat.zero "hits"
      (Int64.ofInt 3) Float32.half rfl (by decide) (by decide) (by decide)).1.trans
      (by decide)⟩

/-! ### C11: Transport errors of the synchronous operations -/

/-- C11, amended. On a connected client, with a valid sample rate at which the sampler fires,
each of `DecrWithSampling` (count `> 0`), `TimingWithSampling`, `GaugeWithSampling` and
`FGaugeWithSampling` returns exactly the result of its last write, the write of the value: a
failure of that write comes back as the (non-nil) error of the operation. The result of the
first write of a negative gauge is dropped. -/
theorem synchronous_operations_return_last_write (cli : Client) (conn : Conn) (draw : Float32)
    (stat : String) (count value : Int64) (fvalue : Float64) (rate : Float32)
    (hconn : cli.conn = some conn) (hpos : 0 < count.val)
    (hvalid : checkSampleRate rate = none) (hfire : shouldFire draw rate = true) :
    (cli.DecrWithSampling draw stat count rate).2
      = (conn.Write (cli.metric stat (.int64 count.neg) "c" rate)).2
    ∧ (cli.TimingWithSampling draw stat value rate).2
      = (conn.Write (cli.metric stat (.int64 value) "ms" rate)).2
    ∧ (0 ≤ value.val → (cli.GaugeWithSampling draw stat value rate).2
      = (conn.Write (cli.metric stat (.int64 value) "g" rate)).2)
    ∧ (value.val < 0 → (cli.GaugeWithSampling draw stat value rate).2
      = ((conn.Write (cli.metric stat (.int 0) "g" Float32.one)).1.Write
          (cli.metric stat (.int64 value) "g" rate)).2)
    ∧ (fvalue.lt IEEEFloat.zero = false → (cli.FGaugeWithSampling draw stat fvalue rate).2
      = (conn.Write (cli.metric stat (.float64 fvalue) "g" rate)).2)
    ∧ (fvalue.lt IEEEFloat.zero = true → (cli.FGaugeWithSampling draw stat fvalue rate).2
      = ((conn.Write (cli.metric stat (.float64 fvalue) "g" Float32.one)).1.Write
          (cli.metric stat (.float64 fvalue) "g" rate)).2) := by
  have hc := checkCount_pos count hpos
  refine ⟨?_, ?_, ?_, ?_, ?_, ?_⟩
  · simp only [Client.DecrWithSampling, hvalid, hfire, hc, Bool.not_true, Bool.false_eq_true,
      if_false]
    rw [send_connected cli conn _ _ _ _ hconn]
  · simp only [Client.TimingWithSampling, hvalid, hfire, Bool.not_true, Bool.false_eq_true,
      if_false]
    rw [send_connected cli conn _ _ _ _ hconn]
  · intro hv
    have hv2 : ¬ value.val < 0 := by omega
    simp only [Client.GaugeWithSampling, hvalid, hfire, hv2, Bool.not_true, Bool.false_eq_true,
      if_false]
    rw [send_connected cli conn _ _ _ _ hconn]
  · intro hv
    simp only [Client.GaugeWithSampling, hvalid, hfire, hv, Bool.not_true, Bool.false_eq_true,
      if_false, if_true]
    rw [send_connected cli conn stat (.int 0) "g" Float32.one hconn]
    rw [send_connected _ (conn.Write (cli.metric stat (.int 0) "g" Float32.one)).1 _ _ _ _ rfl]
    rfl
  · intro hv
    simp only [Client.FGaugeWithSampling, hvalid, hfire, hv, Bool.not_true, Bool.false_eq_true,
      if_false]
    rw [send_connected cli conn _ _ _ _ hconn]
  · intro hv
    simp only [Client.FGaugeWithSampling, hvalid, hfire, hv, Bool.not_true, Bool.false_eq_true,
      if_false, if_true]
    rw [send_connected cli conn stat (.float64 fvalue) "g" Float32.one hconn]
    rw [send_connected _ (conn.Write (cli.metric stat (.float64 fvalue) "g" Float32.one)).1
      _ _ _ _ rfl]
    rfl

/-- Witness of C11's theorem: the single write of a decrement fails and the decrement
returns that error. -/
theorem synchronous_operations_return_last_write_witness :
    faultyClient.conn = some (Conn.fresh [true, false])
    ∧ 0 < (Int64.ofInt 3).val
    ∧ checkSampleRate Float32.one = none
    ∧ shouldFire Float32.half Float32.one = true
    ∧ (faultyClient.DecrWithSampling Float32.half "hits" (Int64.ofInt 3) Float32.one).2
      = some (.net .io) :=
  ⟨rfl, by decide, by decide, by decide,
    (synchronous_operations_return_last_write faultyClient (Conn.fresh [true, false])
      Float32.half "hits" (Int64.ofInt 3) (Int64.ofInt 3) Float64.minusFive Float32.one rfl
      (by decide) (by decide) (by decide)).1.trans (by decide)⟩

/-- C11, counterexample. The reset write of `GaugeWithSampling("mem", -5, 1.0)` fails, the
write of the value succeeds, and the operation returns `nil`; the same holds for
`FGaugeWithSampling("mem", -5.0, 1.0)`. -/
theorem gauge_drops_error_of_first_write :
    faultyClient.conn = some (Conn.fresh [true, false])
    ∧ ((Conn.fresh [true, false]).Write
        (faultyClient.metric "mem" (.int 0) "g" Float32.one)).2 = some (.net .io)
    ∧ (faultyClient.GaugeWithSampling Float32.half "mem" (Int64.ofInt (-5)) Float32.one).1.writes
      = ["mem:0|g|@1.000000", "mem:-5|g|@1.000000"]
    ∧ (faultyClient.GaugeWithSampling Float32.half "mem" (Int64.ofInt (-5)) Float32.one).2
      = none
    ∧ (faultyClient.FGaugeWithSampling Float32.half "mem" Float64.minusFive Float32.one).2
      = none := by
  decide

/-! ### C12: The line written by `send` -/

theorem decDigitsAux_valid (fuel n : Nat) (acc : List Nat) (h : ∀ x ∈ acc, x < 10) :
    ∀ x ∈ decDigitsAux fuel n acc, x < 10 := by
  induction fuel generalizing n acc with
  | zero => exact h
  | succ fuel ih =>
    unfold decDigitsAux
    split
    · rename_i hn
      intro x hx
      rcases List.mem_cons.mp hx with rfl | hx
      · exact hn
      · exact h x hx
    · apply ih
      intro x hx
      rcases List.mem_cons.mp hx with rfl | hx
      · exact Nat.mod_lt _ (by decide)
      · exact h x hx

theorem trim_valid (a : Decimal) (h : a.Valid) : a.trim.Valid := by
  unfold Decimal.trim
  simp only
  split
  · intro x hx
    simp at hx
  · intro x hx
    simp only [List.mem_reverse] at hx
    exact h x (List.mem_reverse.mp ((List.dropWhile_sublist _).mem hx))

theorem ofBinary_valid (mant : Nat) (e2 : Int) : (Decimal.ofBinary mant e2).Valid := by
  unfold Decimal.ofBinary
  split
  · intro x hx
    simp at hx
  · split <;>
      exact trim_valid _ (decDigitsAux_valid _ _ [] (by simp))

theorem roundDown_valid (a : Decimal) (nd : Int) (h : a.Valid) : (a.RoundDown nd).Valid := by
  unfold Decimal.RoundDown
  split
  · exact h
  · exact trim_valid _ (fun x hx => h x (List.mem_of_mem_take hx))

theorem roundUpDigits_valid (l r : List Nat) (h : ∀ x ∈ l, x < 10)
    (hr : Decimal.roundUpDigits l = some r) : ∀ x ∈ r, x < 10 := by
  induction l with
  | nil => simp [Decimal.roundUpDigits] at hr
  | cons c rest ih =>
    unfold Decimal.roundUpDigits at hr
    split at hr
    · rename_i hc
      simp only [Option.some.injEq] at hr
      subst hr
      intro x hx
      rcases List.mem_cons.mp hx with rfl | hx
      · omega
      · exact h x (List.mem_cons_of_mem _ hx)
    · exact ih (fun x hx => h x (List.mem_cons_of_mem _ hx)) hr

theorem roundUp_valid (a : Decimal) (nd : Int) (h : a.Valid) : (a.RoundUp nd).Valid := by
  unfold Decimal.RoundUp
  split
  · exact h
  · split
    · rename_i ds hds
      intro x hx
      simp only [List.mem_reverse] at hx
      refine roundUpDigits_valid _ ds ?_ hds x hx
      intro y hy
      exact h y (List.mem_of_mem_take (List.mem_reverse.mp hy))
    · intro x hx
      simp only [List.mem_singleton] at hx
      omega

theorem round_valid (a : Decimal) (nd : Int) (h : a.Valid) : (a.Round nd).Valid := by
  unfold Decimal.Round
  split
  · exact h
  · split
    · exact roundUp_valid a nd h
    · exact roundDown_valid a nd h

theorem digit_lt (a : Decimal) (i : Int) (h : a.Valid) : a.digit i < 10 := by
  unfold Decimal.digit
  split
  · rw [List.getD_eq_getElem?_getD]
    cases hg : a.d[i.toNat]? with
    | none => simp
    | some x =>
      simp only [Option.getD_some]
      exact h x (List.getElem?_mem hg)
  · decide

theorem digitChar_isDigit : ∀ n : Nat, n < 10 → (Nat.digitChar n).isDigit = true := by
  decide

theorem fmtF_shape (neg : Bool) (d : Decimal) (prec : Nat) (hp : 0 < prec) (hd : d.Valid) :
    ∃ (whole : String) (fr : List Nat), fmtF neg d prec = whole ++ "." ++ digitChars fr
      ∧ fr.length = prec ∧ ∀ x ∈ fr, x < 10 := by
  unfold fmtF
  simp only
  rw [if_pos (by omega : (prec : Int) > 0)]
  refine ⟨_, _, (String.append_assoc _ _ _).symm, ?_, ?_⟩
  · simp only [List.length_map, bind_pure_comp, List.map_eq_map, List.length_range,
      Int.toNat_ofNat]
  · intro x hx
    obtain ⟨i, _, hi⟩ := List.mem_map.mp hx
    subst hi
    exact digit_lt _ _ hd

/-- The text `%f` gives for a float that is neither NaN nor infinite: the sign and the whole
part, a point, and six decimal digits. -/
theorem formatF_six_decimals {ew mw : Nat} (f : IEEEFloat ew mw) (hnan : f.isNaN = false)
    (hinf : f.isInf = false) :
    ∃ whole frac : String, f.formatF 6 = whole ++ "." ++ frac ∧ frac.length = 6
      ∧ ∀ c ∈ frac.data, c.isDigit = true := by
  unfold IEEEFloat.formatF
  simp only [hnan, hinf, Bool.false_eq_true, if_false]
  obtain ⟨whole, fr, heq, hlen, hfr⟩ := fmtF_shape f.sign
    ((Decimal.ofBinary f.mantExp.1 (f.mantExp.2 - mw)).Round
      ((Decimal.ofBinary f.mantExp.1 (f.mantExp.2 - mw)).dp + ((6 : Nat) : Int))) 6 (by decide)
    (round_valid _ _ (ofBinary_valid _ _))
  refine ⟨whole, digitChars fr, heq, ?_, ?_⟩
  · simp [digitChars, hlen]
  · intro c hc
    simp only [digitChars, List.mem_map] at hc
    obtain ⟨n, hn, hcn⟩ := hc
    subst hcn
    exact digitChar_isDigit n (hfr n hn)

theorem startsWithDot_metric (cli : Client) (bucket : String) (value : Value) (t : String)
    (rate : Float32) :
    startsWithDot (cli.metric bucket value t rate)
      = if cli.pfx ≠ "" then startsWithDot cli.pfx else startsWithDot bucket := by
  unfold Client.metric startsWithDot
  generalize cli.pfx = p
  obtain ⟨pd⟩ := p
  obtain ⟨bd⟩ := bucket
  cases pd with
  | nil =>
    have h : (String.mk [] : String) = "" := rfl
    simp only [h, ne_eq, not_true_eq_false, if_false, String.data_append, List.head?_append]
    cases bd with
    | nil => rfl
    | cons c rest => rfl
  | cons c rest =>
    have h : (String.mk (c :: rest) : String) ≠ "" := by
      intro h
      have := congrArg String.data h
      simp at this
    simp only [ne_eq, h, not_false_eq_true, if_true, String.data_append, List.head?_append]
    rfl

theorem endsWithDot_TrimRightDots (s : String) : endsWithDot (TrimRightDots s) = false := by
  unfold endsWithDot TrimRightDots
  simp only [List.getLast?_reverse]
  have h := List.head?_dropWhile_not (fun c => c == '.') s.data.reverse
  cases hd : (List.dropWhile (fun c => c == '.') s.data.reverse).head? with
  | none => rfl
  | some c =>
    rw [hd] at h
    simp only at h
    cases hc : (some c == some '.') with
    | false => rfl
    | true =>
      have : c = '.' := by simpa using hc
      subst this
      simp at h

/-- C12, amended. For every bucket, integer value, type code `t` and sample rate, the line
that `send` writes is `prefix + "." + bucket + ":" + decimal(value) + "|" + t + "|@" + rate`
when the prefix of the client is not empty, and the same line without the prefix and its
`"."` when the prefix is empty; the rate is printed by `%f`, which gives six decimal digits
after a point for every rate that is neither NaN nor infinite. The line starts with `"."`
exactly when the prefix does or, with an empty prefix, the bucket does: `NewClient` strips
the dots at the end of the prefix only. -/
theorem send_line_format (cli : Client) (bucket : String) (value : Int64) (t : String)
    (rate : Float32) :
    (cli.pfx ≠ "" →
      cli.metric bucket (.int64 value) t rate
        = cli.pfx ++ "." ++ bucket ++ ":" ++ fmtInt value.val ++ "|" ++ t ++ "|@"
            ++ rate.formatF 6)
    ∧ (cli.pfx = "" →
      cli.metric bucket (.int64 value) t rate
        = bucket ++ ":" ++ fmtInt value.val ++ "|" ++ t ++ "|@" ++ rate.formatF 6)
    ∧ (∀ i : Int, cli.metric bucket (.int i) t rate
        = (if cli.pfx ≠ "" then cli.pfx ++ "." ++ bucket else bucket) ++ ":" ++ fmtInt i
            ++ "|" ++ t ++ "|@" ++ rate.formatF 6)
    ∧ (∀ conn : Conn, cli.conn = some conn →
        (cli.send bucket (.int64 value) t rate).1.writes
          = conn.writes ++ [cli.metric bucket (.int64 value) t rate])
    ∧ (rate.isNaN = false → rate.isInf = false →
        ∃ whole frac : String, rate.formatF 6 = whole ++ "." ++ frac ∧ frac.length = 6
          ∧ ∀ c ∈ frac.data, c.isDigit = true)
    ∧ startsWithDot (cli.metric bucket (.int64 value) t rate)
        = (if cli.pfx ≠ "" then startsWithDot cli.pfx else startsWithDot bucket)
    ∧ (∀ (dial : String → Except Error Conn) (addr p : String) (c : Client),
        NewClient dial addr p = .ok c → c.pfx = TrimRightDots p ∧ endsWithDot c.pfx = false) := by
  refine ⟨?_, ?_, ?_, ?_, formatF_six_decimals rate, startsWithDot_metric _ _ _ _ _, ?_⟩
  · intro h
    simp only [Client.metric, h, ne_eq, not_false_eq_true, if_true, Value.format]
  · intro h
    simp only [Client.metric, h, ne_eq, not_true_eq_false, if_false, Value.format]
  · intro i
    rfl
  · intro conn hconn
    exact send_writes cli conn _ _ _ _ hconn
  · intro dial addr p c h
    unfold NewClient at h
    simp only at h
    split at h
    · simp at h
    · simp only [Except.ok.injEq] at h
      subst h
      exact ⟨rfl, endsWithDot_TrimRightDots p⟩

/-- Witness of C12's theorem: a client with the prefix `app` and one without prefix, at the
sample rate `0.5`. -/
theorem send_line_format_witness :
    ({ exampleClient with pfx := "app" } : Client).pfx ≠ ""
    ∧ ({ exampleClient with pfx := "app" } : Client).metric "hits" (.int64 (Int64.ofInt (-3))) "c"
        Float32.half = "app.hits:-3|c|@0.500000"
    ∧ exampleClient.pfx = ""
    ∧ exampleClient.metric "hits" (.int64 (Int64.ofInt (-3))) "c" Float32.half
        = "hits:-3|c|@0.500000"
    ∧ Float32.half.isNaN = false
    ∧ Float32.half.isInf = false
    ∧ ∃ whole frac : String, Float32.half.formatF 6 = whole ++ "." ++ frac ∧ frac.length = 6
        ∧ ∀ c ∈ frac.data, c.isDigit = true :=
  have h1 := send_line_format { exampleClient with pfx := "app" } "hits" (Int64.ofInt (-3)) "c"
    Float32.half
  have h2 := send_line_format exampleClient "hits" (Int64.ofInt (-3)) "c" Float32.half
  ⟨by decide, (h1.1 (by decide)).trans (by decide), rfl, (h2.2.1 rfl).trans (by decide),
    by decide, by decide, h2.2.2.2.2.1 (by decide) (by decide)⟩

/-- C12, counterexample. Lines that start with `"."`: on a client without prefix the bucket
`.hits` gives `.hits:1|ms|@1.000000`, and `NewClient` with the prefix `.app.` keeps the prefix
`.app`, which gives `.app.hits:1|ms|@1.000000`. And a rate without six decimal places: for a
NaN the line ends in `|@NaN`. -/
theorem send_line_can_start_with_dot :
    exampleClient.pfx = ""
    ∧ (exampleClient.TimingWithSampling Float32.half ".hits" (Int64.ofInt 1) Float32.one).1.writes
      = [".hits:1|ms|@1.000000"]
    ∧ startsWithDot ".hits:1|ms|@1.000000" = true
    ∧ (match NewClient exampleDial "127.0.0.1:8125" ".app." with
        | .ok c => (c.TimingWithSampling Float32.half "hits" (Int64.ofInt 1) Float32.one).1.writes
        | .error _ => [])
      = [".app.hits:1|ms|@1.000000"]
    ∧ exampleClient.metric "hits" (.int64 (Int64.ofInt 1)) "ms" Float32.nan
      = "hits:1|ms|@NaN" := by
  decide

/-! ### C13: One flush tick -/

theorem foldl_send_writes (l : List bufferCount) (cli : Client) (conn : Conn)
    (hconn : cli.conn = some conn) :
    (l.foldl (fun c b => (c.send b.name (.int64 b.count) "c" b.sampleRate).1) cli).writes
      = conn.writes ++ l.map cli.counterLine := by
  induction l generalizing cli conn with
  | nil => simp [Client.writes, hconn]
  | cons b rest ih =>
    rw [List.foldl_cons, send_connected cli conn _ _ _ _ hconn]
    rw [ih _ (conn.Write (cli.metric b.name (.int64 b.count) "c" b.sampleRate)).1 rfl]
    rw [conn_write_writes, List.map_cons, List.append_assoc]
    rfl

/-- C13. One tick of the flush loop on a connected client: with an empty buffer the client
stays as it is (nothing is written, the buffer stays empty); otherwise the buffer is empty
afterwards and exactly one line per buffered entry is written, in buffer order, the line of
entry `i` being the counter line (type `c`) of its name, count and sample rate. -/
theorem flush_tick_sends_buffer_in_order (cli : Client) (conn : Conn)
    (hconn : cli.conn = some conn) :
    (cli.buffer = [] → cli.flushTick = cli)
    ∧ cli.flushTick.buffer = []
    ∧ cli.flushTick.writes
        = conn.writes ++ cli.buffer.map
            (fun b => cli.metric b.name (.int64 b.count) "c" b.sampleRate)
    ∧ (cli.flushTick.writes.drop conn.writes.length).length = cli.buffer.length
    ∧ (∀ (i : Nat) (b : bufferCount), cli.buffer.get? i = some b →
        cli.flushTick.writes.get? (conn.writes.length + i)
          = some (cli.metric b.name (.int64 b.count) "c" b.sampleRate)) := by
  have hw : cli.flushTick.writes = conn.writes ++ cli.buffer.map cli.counterLine := by
    unfold Client.flushTick
    split
    · rename_i h
      rw [List.length_eq_zero.mp h]
      simp [Client.writes, hconn]
    · exact foldl_send_writes cli.buffer { cli with buffer := [] } conn hconn
  refine ⟨?_, flushTick_buffer cli, hw, ?_, ?_⟩
  · intro hb
    unfold Client.flushTick
    rw [hb]
    rfl
  · rw [hw, List.drop_left]
    simp
  · intro i b hb
    rw [hw, List.get?_eq_getElem?, List.getElem?_append_right (by omega)]
    rw [Nat.add_sub_cancel_left, List.getElem?_map, ← List.get?_eq_getElem?, hb]
    rfl

/-- Witness of C13's theorem: a tick with two buffered counters. -/
theorem flush_tick_sends_buffer_in_order_witness :
    exampleClient.conn = some (Conn.fresh [])
    ∧ ({ exampleClient with
          buffer := [⟨"foo", Int64.ofInt 2, Float32.one⟩, ⟨"bar", Int64.ofInt 7, Float32.half⟩] }
        : Client).flushTick.writes = ["foo:2|c|@1.000000", "bar:7|c|@0.500000"] :=
  ⟨rfl, (flush_tick_sends_buffer_in_order
      { exampleClient with
        buffer := [⟨"foo", Int64.ofInt 2, Float32.one⟩, ⟨"bar", Int64.ofInt 7, Float32.half⟩] }
      (Conn.fresh []) rfl).2.2.1.trans (by decide)⟩

/-! ### C14: Overflow of the dispatch queue -/

theorem sendAsync_started (dial : String → Except Error Conn) (g : Globals) (stat : String)
    (value : Value) (t : metricType) (rate : Float32) (hloop : g.sendLoopOnce = true) :
    sendAsync dial g stat value t rate = some (enqueue g ⟨stat, value, t, rate⟩) := by
  unfold sendAsync
  rw [if_pos hloop, Option.map_some']

theorem enqueue_full (g : Globals) (ch : Chan) (item : metricItem) (hch : g.sendChan = some ch)
    (hfull : ¬ ch.items.length < ch.cap) :
    enqueue g item = { g with log := g.log ++ [item] } := by
  unfold enqueue
  rw [hch]
  simp [hfull]

theorem sendAsyncEach_started (dial : String → Except Error Conn) (items : List metricItem)
    (g : Globals) (ch : Chan) (hloop : g.sendLoopOnce = true) (hch : g.sendChan = some ch)
    (hlen : ch.items.length ≤ ch.cap) :
    sendAsyncEach dial g items
      = some { g with
          sendChan := some { ch with
            items := ch.items ++ items.take (ch.cap - ch.items.length) },
          log := g.log ++ items.drop (ch.cap - ch.items.length) } := by
  induction items generalizing g ch with
  | nil =>
    cases g
    simp only [sendAsyncEach, List.take_nil, List.drop_nil, List.append_nil] at hch ⊢
    rw [hch]
  | cons item rest ih =>
    rw [sendAsyncEach, sendAsync_started dial g _ _ _ _ hloop]
    by_cases hroom : ch.items.length < ch.cap
    · rw [enqueue_room g ch _ hch hroom]
      obtain ⟨k, hk⟩ : ∃ k, ch.cap - ch.items.length = k + 1 :=
        ⟨ch.cap - ch.items.length - 1, by omega⟩
      have hk2 : ch.cap - (ch.items ++ [item]).length = k := by
        simp only [List.length_append, List.length_singleton]; omega
      refine (ih { g with sendChan := some { ch with items := ch.items ++ [item] } }
        { ch with items := ch.items ++ [item] } hloop rfl
        (by simp only [List.length_append, List.length_singleton]; omega)).trans ?_
      simp only [hk, hk2, List.take_succ_cons, List.drop_succ_cons, List.append_assoc,
        List.singleton_append]
    · rw [enqueue_full g ch _ hch hroom]
      have hk : ch.cap - ch.items.length = 0 := by omega
      refine (ih { g with log := g.log ++ [item] } ch hloop hch hlen).trans ?_
      simp only [hk, List.take_zero, List.drop_zero, List.append_nil, List.append_assoc,
        List.singleton_append]

theorem getClient_sendChan (dial : String → Except Error Conn) (g g1 : Globals)
    (h : getClient dial g = some g1) :
    g1.sendChan = g.sendChan ∧ g1.log = g.log ∧ g1.sendLoopOnce = g.sendLoopOnce := by
  unfold getClient at h
  split at h
  · simp at h; subst h; exact ⟨rfl, rfl, rfl⟩
  · split at h
    · simp at h; subst h; exact ⟨rfl, rfl, rfl⟩
    · split at h
      · simp at h
      · simp at h; subst h; exact ⟨rfl, rfl, rfl⟩

/-- C14. With the send loop running and the queue a FIFO list of capacity 1024: `sendAsync`
on a queue of 1024 items returns (no panic, no error value) a state that differs from the old
one in the log only, so the queue and the default client with its connection are unchanged and
the item is dropped: the worker does afterwards what it would have done without the call. On
a queue of fewer than 1024 items `sendAsync` appends the item at the tail.
After any sequence of `sendAsync` calls the queue is the old queue followed by the first of
the new items that fit, so its length stays at most 1024 and the items keep their order. The
queue that the first `sendAsync` call creates has capacity 1024. -/
theorem sendAsync_drops_on_full_queue (dial : String → Except Error Conn) (g : Globals)
    (ch : Chan) (stat : String) (value : Value) (t : metricType) (rate : Float32)
    (hloop : g.sendLoopOnce = true) (hch : g.sendChan = some ch) (hcap : ch.cap = 1024) :
    (ch.items.length = 1024 →
      sendAsync dial g stat value t rate
        = some { g with log := g.log ++ [⟨stat, value, t, rate⟩] })
    ∧ (ch.items.length = 1024 → ∀ draw : Float32,
      workerStep draw { g with log := g.log ++ [⟨stat, value, t, rate⟩] }
        = (workerStep draw g).map
            (fun g1 => { g1 with log := g.log ++ [⟨stat, value, t, rate⟩] }))
    ∧ (ch.items.length < 1024 →
      sendAsync dial g stat value t rate
        = some { g with
            sendChan := some { ch with items := ch.items ++ [⟨stat, value, t, rate⟩] } })
    ∧ (ch.items.length ≤ 1024 → ∀ items : List metricItem,
      ∃ g1 ch1, sendAsyncEach dial g items = some g1 ∧ g1.sendChan = some ch1
        ∧ ch1.cap = 1024
        ∧ ch1.items = ch.items ++ items.take (1024 - ch.items.length)
        ∧ ch1.items.length ≤ 1024
        ∧ g1.log = g.log ++ items.drop (1024 - ch.items.length)
        ∧ g1.defaultClient = g.defaultClient)
    ∧ (∀ g0 g1 : Globals, g0.sendLoopOnce = false → g0.sendChan = none →
        getClient dial { g0 with sendChan := some ⟨1024, []⟩ } = some g1 →
        (sendAsync dial g0 stat value t rate).map (fun g2 => g2.sendChan)
          = some (some ⟨1024, [⟨stat, value, t, rate⟩]⟩)) := by
  refine ⟨?_, ?_, ?_, ?_, ?_⟩
  · intro hfull
    rw [sendAsync_started dial g _ _ _ _ hloop]
    rw [enqueue_full g ch _ hch (by omega)]
  · intro _ draw
    obtain ⟨config, addr, once, defaultClient, sendLoopOnce, sendChan, log⟩ := g
    simp only at hloop hch
    subst hloop hch
    obtain ⟨cap, items⟩ := ch
    unfold workerStep
    simp only [Bool.not_true, Bool.false_eq_true, if_false]
    cases items with
    | nil => rfl
    | cons item rest =>
      cases defaultClient with
      | some cli => rfl
      | none =>
        simp only
        split <;> rfl
  · intro hroom
    rw [sendAsync_started dial g _ _ _ _ hloop]
    rw [enqueue_room g ch _ hch (by omega)]
  · intro hlen items
    refine ⟨_, _, sendAsyncEach_started dial items g ch hloop hch (by omega), rfl, hcap, ?_, ?_,
      ?_, rfl⟩
    · simp only [hcap]
    · simp only [List.length_append, List.length_take, hcap]
      omega
    · simp only [hcap]
  · intro g0 g1 hloop0 hch0 hget
    obtain ⟨h1, _, _⟩ := getClient_sendChan dial _ g1 hget
    have hs : sendAsync dial g0 stat value t rate
        = some (enqueue { g1 with sendLoopOnce := true } ⟨stat, value, t, rate⟩) := by
      unfold sendAsync
      rw [if_neg (by simp [hloop0]), hch0]
      simp only [Option.isNone_none, if_true]
      rw [hget]
      rfl
    rw [hs]
    simp [enqueue, h1]

/-- Witness of C14's theorem: one more item on a full queue leaves the 1024 queued items and
the default client as they are. -/
theorem sendAsync_drops_on_full_queue_witness :
    fullGlobals.sendLoopOnce = true
    ∧ fullGlobals.sendChan = some fullChan
    ∧ fullChan.cap = 1024
    ∧ fullChan.items.length = 1024
    ∧ sendAsync exampleDial fullGlobals "load" (.int64 (Int64.ofInt 7)) metricType_Timer
        Float32.one
      = some { fullGlobals with
          log := [⟨"load", .int64 (Int64.ofInt 7), metricType_Timer, Float32.one⟩] } :=
  ⟨rfl, rfl, rfl, List.length_replicate _ _,
    (sendAsync_drops_on_full_queue exampleDial fullGlobals fullChan "load"
      (.int64 (Int64.ofInt 7)) metricType_Timer Float32.one rfl rfl rfl).1
      (List.length_replicate _ _)⟩

/-! ### C15: `Setup` -/

/-- C15. After `Setup(cfg)` the configuration is `cfg` with the sample rate `1.0` when
`cfg.SampleRate == 0` and with the sample rate of `cfg` otherwise, and the address is
`Host + ":" + decimal(Port)`. -/
theorem setup_defaults_zero_sample_rate (g : Globals) (cfg : Config) :
    (cfg.SampleRate.eq IEEEFloat.zero = true →
      (Setup g cfg).config = some { cfg with SampleRate := Float32.one })
    ∧ (cfg.SampleRate.eq IEEEFloat.zero = false → (Setup g cfg).config = some cfg)
    ∧ (Setup g cfg).addr = cfg.Host ++ ":" ++ fmtInt cfg.Port
    ∧ (Setup g ⟨"localhost", 8125, "app", true, IEEEFloat.zero⟩).config
        = some ⟨"localhost", 8125, "app", true, Float32.one⟩
    ∧ (Setup g ⟨"localhost", 8125, "app", true, Float32.half⟩).config
        = some ⟨"localhost", 8125, "app", true, Float32.half⟩
    ∧ (Setup g ⟨"localhost", 8125, "app", true, Float32.half⟩).addr = "localhost:8125" := by
  refine ⟨?_, ?_, ?_, ?_, ?_, ?_⟩
  · intro h
    simp [Setup, h, default_SampleRate]
  · intro h
    simp [Setup, h]
  · unfold Setup
    split <;> rfl
  · have h : (IEEEFloat.zero : Float32).eq IEEEFloat.zero = true := by decide
    simp [Setup, h, default_SampleRate]
  · have h : Float32.half.eq IEEEFloat.zero = false := by decide
    simp [Setup, h]
  · have h : Float32.half.eq IEEEFloat.zero = false := by decide
    simp only [Setup, h, Bool.false_eq_true, if_false]
    decide

/-- Witness of C15's theorem: the rate `-0` equals `0` and is replaced, the rate `0.5` is
kept. -/
theorem setup_defaults_zero_sample_rate_witness :
    Float32.negZero.eq IEEEFloat.zero = true
    ∧ (Setup Globals.init ⟨"localhost", 8125, "app", true, Float32.negZero⟩).config
        = some ⟨"localhost", 8125, "app", true, Float32.one⟩
    ∧ Float32.half.eq IEEEFloat.zero = false
    ∧ (Setup Globals.init ⟨"localhost", 8125, "app", true, Float32.half⟩).config
        = some ⟨"localhost", 8125, "app", true, Float32.half⟩ :=
  have h := setup_defaults_zero_sample_rate Globals.init
    ⟨"localhost", 8125, "app", true, Float32.negZero⟩
  have h2 := setup_defaults_zero_sample_rate Globals.init
    ⟨"localhost", 8125, "app", true, Float32.half⟩
  ⟨by decide, h.1 (by decide), by decide, h2.2.1 (by decide)⟩

/-! ### C16: Recording while disabled -/

/-- C16, the code at the failing input. With `config.Enable` false, `Incr`,
`IncrWithSampling`, `FGauge`, `FGaugeWithSampling`, `Timing` and `TimingWithSampling` leave the
package state as it is, for every stat, value and sample rate; but `GaugeWithSampling("mem",
5, 1.0)` and `Gauge("mem", 5)` have no check of `Enable`: they start the send loop, which
dials the default client, and put the gauge item on the queue. -/
theorem gauge_ignores_disabled_config :
    (disabledGlobals.config.map fun c => c.Enable) = some false
    ∧ (∀ (dial : String → Except Error Conn) (stat : String) (value : Int64) (rate : Float32),
        IncrWithSampling dial disabledGlobals stat value rate = some disabledGlobals
        ∧ Incr dial disabledGlobals stat value = some disabledGlobals
        ∧ TimingWithSampling dial disabledGlobals stat value rate = some disabledGlobals
        ∧ Timing dial disabledGlobals stat value = some disabledGlobals)
    ∧ (∀ (dial : String → Except Error Conn) (stat : String) (value : Float64) (rate : Float32),
        FGaugeWithSampling dial disabledGlobals stat value rate = some disabledGlobals
        ∧ FGauge dial disabledGlobals stat value = some disabledGlobals)
    ∧ (GaugeWithSampling exampleDial disabledGlobals "mem" (Int64.ofInt 5) Float32.one).map
        (fun g => g.sendChan)
      = some (some ⟨1024, [⟨"mem", .int64 (Int64.ofInt 5), metricType_Gauge, Float32.one⟩]⟩)
    ∧ (Gauge exampleDial disabledGlobals "mem" (Int64.ofInt 5)).map (fun g => g.sendChan)
      = some (some ⟨1024, [⟨"mem", .int64 (Int64.ofInt 5), metricType_Gauge, Float32.one⟩]⟩)
    ∧ (GaugeWithSampling exampleDial disabledGlobals "mem" (Int64.ofInt 5) Float32.one).map
        (fun g => g.defaultClient)
      = some (some ⟨"127.0.0.1:8125", "", some (Conn.fresh []), [], true⟩) := by
  have hc : disabledGlobals.config = some ⟨"127.0.0.1", 8125, "", false, Float32.one⟩ := by
    decide
  refine ⟨by decide, ?_, ?_, by decide, by decide, by decide⟩
  · intro dial stat value rate
    simp [IncrWithSampling, Incr, TimingWithSampling, Timing, hc]
  · intro dial stat value rate
    simp [FGaugeWithSampling, FGauge, hc]

/-! ### C17: Repeated `addToBuffer` calls for one name -/

theorem ofInt_val_add (a m : Int) :
    Int64.ofInt ((Int64.ofInt a).val + m) = Int64.ofInt (a + m) := by
  apply Subtype.ext
  simp only [Int64.ofInt, wrap64]
  omega

theorem ofInt_val (a : Int64) : Int64.ofInt a.val = a := by
  apply Subtype.ext
  have := a.property
  simp only [Int64.ofInt, wrap64]
  omega

theorem addToBufferEach_hits (stat : String) (c : Int64) (r1 : Float32) (rs : List Float32)
    (cli : Client) (before : List bufferCount) (k : Int64)
    (hbefore : ∀ b ∈ before, b.name ≠ stat)
    (hbuf : cli.buffer = before ++ [⟨stat, k, r1⟩]) :
    (cli.addToBufferEach stat c rs).buffer
      = before ++ [⟨stat, Int64.ofInt (k.val + rs.length), r1⟩] := by
  induction rs generalizing cli k with
  | nil =>
    simp only [Client.addToBufferEach, List.foldl_nil, List.length_nil, Int.Nat.cast_ofNat_Int,
      Int.add_zero, ofInt_val]
    exact hbuf
  | cons r rest ih =>
    have hstep : (cli.addToBuffer stat c r).buffer = before ++ [⟨stat, k.inc, r1⟩] := by
      rw [addToBuffer_buffer, hbuf]
      exact reference_split stat c r before ⟨stat, k, r1⟩ [] hbefore rfl
    have h := ih (cli.addToBuffer stat c r) k.inc hstep
    simp only [Client.addToBufferEach, List.foldl_cons] at h ⊢
    rw [h]
    have e : Int64.ofInt (k.inc.val + (rest.length : Int))
        = Int64.ofInt (k.val + ((r :: rest).length : Int)) := by
      simp only [Int64.inc, ofInt_val_add, List.length_cons, Nat.cast_add, Nat.cast_one]
      congr 1
      omega
    rw [e]

/-- C17. For every `n >= 1` (here `n = rs.length + 1`), stat, count `c` and sample rates
`r1, rs`: after the `n` calls `addToBuffer(stat, c, r)` on a buffer without entry named `stat`,
the buffer is the old one followed by the single entry named `stat`, with the sample rate `r1`
of the first call and the count `c + (n - 1)` in `int64` arithmetic, which is the integer
`c + (n - 1)` unless that overflows. The count equals the number of calls exactly when
`c = 1`. -/
theorem repeated_addToBuffer_counts_calls (cli : Client) (stat : String) (c : Int64)
    (r1 : Float32) (rs : List Float32) (h : ∀ b ∈ cli.buffer, b.name ≠ stat) :
    (cli.addToBufferEach stat c (r1 :: rs)).buffer
      = cli.buffer ++ [⟨stat, Int64.ofInt (c.val + rs.length), r1⟩]
    ∧ (cli.addToBufferEach stat c (r1 :: rs)).buffer.filter (fun b => decide (b.name = stat))
      = [⟨stat, Int64.ofInt (c.val + rs.length), r1⟩]
    ∧ (c.val + rs.length < 2 ^ 63 →
        (Int64.ofInt (c.val + rs.length)).val = c.val + rs.length)
    ∧ (Int64.ofInt (c.val + rs.length) = Int64.ofInt ((rs.length : Int) + 1)
        ↔ c = Int64.ofInt 1)
    ∧ ((rs.length : Int) + 1 < 2 ^ 63 →
        ((Int64.ofInt (c.val + rs.length)).val = (rs.length : Int) + 1 ↔ c.val = 1)) := by
  have hc := c.property
  have hbuf : (cli.addToBufferEach stat c (r1 :: rs)).buffer
      = cli.buffer ++ [⟨stat, Int64.ofInt (c.val + rs.length), r1⟩] := by
    have hfirst : (cli.addToBuffer stat c r1).buffer = cli.buffer ++ [⟨stat, c, r1⟩] := by
      rw [addToBuffer_buffer]
      exact reference_absent stat c r1 cli.buffer h
    exact addToBufferEach_hits stat c r1 rs (cli.addToBuffer stat c r1) cli.buffer c h hfirst
  refine ⟨hbuf, ?_, ?_, ?_, ?_⟩
  · rw [hbuf, List.filter_append]
    have hnone : cli.buffer.filter (fun b => decide (b.name = stat)) = [] := by
      rw [List.filter_eq_nil_iff]
      intro x hx hxn
      exact h x hx (by simpa using hxn)
    rw [hnone]
    simp
  · intro hlt
    simp only [Int64.ofInt, wrap64]
    omega
  · constructor
    · intro heq
      apply Subtype.ext
      have hv := congrArg Subtype.val heq
      simp only [Int64.ofInt, wrap64] at hv ⊢
      omega
    · intro heq
      apply Subtype.ext
      have hv := congrArg Subtype.val heq
      simp only [Int64.ofInt, wrap64] at hv ⊢
      omega
  · intro hn
    simp only [Int64.ofInt, wrap64]
    omega

/-- Witness of C17's theorem: three calls with count `5` leave the count `7` and the rate of
the first call. -/
theorem repeated_addToBuffer_counts_calls_witness :
    (∀ b ∈ exampleClient.buffer, b.name ≠ "foo")
    ∧ (exampleClient.addToBufferEach "foo" (Int64.ofInt 5)
        [Float32.half, Float32.one, Float32.one]).buffer
      = [⟨"foo", Int64.ofInt 7, Float32.half⟩] :=
  ⟨by decide,
    (repeated_addToBuffer_counts_calls exampleClient "foo" (Int64.ofInt 5) Float32.half
      [Float32.one, Float32.one] (by decide)).1.trans (by decide)⟩

/-! ### C18: Buffer and transport are touched by separate operations -/

theorem addToBuffer_conn (cli : Client) (stat : String) (count : Int64) (rate : Float32) :
    (cli.addToBuffer stat count rate).conn = cli.conn := by
  rw [addToBuffer_buffer]

/-- C18. For all arguments and draws, `DecrWithSampling`, `TimingWithSampling`,
`GaugeWithSampling` and `FGaugeWithSampling` leave the counter buffer as it was; and
`IncrWithSampling` leaves the connection as it was (no write), returns only `nil`,
`Err_InvalidSampleRate` or `Err_InvalidCount`, and returns `nil` whenever the count is
positive and the sample rate passes `checkSampleRate`, also on a client without
connection. -/
theorem buffer_and_transport_frames (cli : Client) (draw : Float32) (stat : String)
    (count value : Int64) (fvalue : Float64) (rate : Float32) :
    (cli.DecrWithSampling draw stat count rate).1.buffer = cli.buffer
    ∧ (cli.TimingWithSampling draw stat value rate).1.buffer = cli.buffer
    ∧ (cli.GaugeWithSampling draw stat value rate).1.buffer = cli.buffer
    ∧ (cli.FGaugeWithSampling draw stat fvalue rate).1.buffer = cli.buffer
    ∧ (cli.IncrWithSampling draw stat count rate).1.conn = cli.conn
    ∧ (cli.IncrWithSampling draw stat count rate).1.writes = cli.writes
    ∧ ((cli.IncrWithSampling draw stat count rate).2 = none
        ∨ (cli.IncrWithSampling draw stat count rate).2 = some .Err_InvalidSampleRate
        ∨ (cli.IncrWithSampling draw stat count rate).2 = some .Err_InvalidCount)
    ∧ (0 < count.val → checkSampleRate rate = none →
        (cli.IncrWithSampling draw stat count rate).2 = none) := by
  have hconn : (cli.IncrWithSampling draw stat count rate).1.conn = cli.conn := by
    unfold Client.IncrWithSampling
    split
    · rfl
    · split
      · rfl
      · split
        · rfl
        · exact addToBuffer_conn cli stat count rate
  refine ⟨?_, ?_, ?_, ?_, hconn, ?_, ?_, ?_⟩
  · unfold Client.DecrWithSampling
    split
    · rfl
    · split
      · rfl
      · split
        · rfl
        · exact send_buffer _ _ _ _ _
  · unfold Client.TimingWithSampling
    split
    · rfl
    · split
      · rfl
      · exact send_buffer _ _ _ _ _
  · unfold Client.GaugeWithSampling
    split
    · rfl
    · split
      · rfl
      · simp only
        rw [send_buffer]
        split
        · exact send_buffer _ _ _ _ _
        · rfl
  · unfold Client.FGaugeWithSampling
    split
    · rfl
    · split
      · rfl
      · simp only
        rw [send_buffer]
        split
        · exact send_buffer _ _ _ _ _
        · rfl
  · unfold Client.writes
    rw [hconn]
  · unfold Client.IncrWithSampling checkSampleRate checkCount
    split
    · rename_i err h
      split at h
      · simp at h
        simp [← h]
      · simp at h
    · split
      · simp
      · split
        · rename_i err h
          split at h
          · simp at h
            simp [← h]
          · simp at h
        · simp
  · intro hpos hvalid
    have hc := checkCount_pos count hpos
    cases hf : shouldFire draw rate <;> simp [Client.IncrWithSampling, hvalid, hc, hf]

/-- Witness of C18's theorem: an increment on a client without connection returns `nil`. -/
theorem buffer_and_transport_frames_witness :
    0 < (Int64.ofInt 4).val
    ∧ checkSampleRate Float32.half = none
    ∧ (({ exampleClient with conn := none } : Client).IncrWithSampling IEEEFloat.zero "hits"
        (Int64.ofInt 4) Float32.half).2 = none :=
  ⟨by decide, by decide,
    (buffer_and_transport_frames { exampleClient with conn := none } IEEEFloat.zero "hits"
      (Int64.ofInt 4) (Int64.ofInt 4) Float64.minusFive Float32.half).2.2.2.2.2.2.2
      (by decide) (by decide)⟩

end Statsd
